import Mathlib

/-!
# SDL_Raytracing: a shallow embedding of `raytracing.c`

The C program works on `double` and `int`.  In this development

* a `double` is an element of a linearly ordered field `F`; the functions are written once for
  every such field, so they can be run on `ℚ`, and the theorems are about `F = ℝ`, that is
  about the exact arithmetic the program approximates (the rounding of `double` is outside the
  model);
* the C library functions `sqrt`, `cos` and `sin` are parameters of the functions that call
  them; the theorems instantiate them with `Real.sqrt`, `Real.cos` and `Real.sin`, or hold for
  every function;
* the value `INFINITY` of `intersect_ray_screen` is the top element of `WithTop F`;
* an `int` is a 32-bit integer: the arithmetic of `FillCircle` wraps modulo `2^32`
  (`wrap_int`), and the cast `(int)` of a `double` is truncation toward zero, with the value
  `INT_MIN` of the x86-64 conversion when the result is out of the range of `int` (where C
  leaves the cast undefined);
* the pixel surface is the list of the `SDL_FillRect` calls made on it, oldest first, and the
  colour of a pixel is the colour of the last fill that covers it;
* the loop of `main` is a step function on the variables it changes, driven by one list of
  queued events per frame, with a count of the calls of `generate_rays`; the pacing of the
  frames is not part of the model.
-/

namespace Raytracing

/-! ## Constants (`#define`s of the source) -/

/-- Canvas width, `WIDTH`. -/
def WIDTH : Nat := 1920

/-- Canvas height, `HEIGHT`. -/
def HEIGHT : Nat := 1080

/-- Number of rays of the field, `RAYS_NUMBER`. -/
def RAYS_NUMBER : Nat := 500

/-- Side of the main square of a ray sample, `RAY_THICKNESS`. -/
def RAY_THICKNESS : Nat := 1

/-- The decimal constant `PI` of the source, `3.14159265359`. -/
def PI {F : Type} [LinearOrderedField F] : F := 314159265359 / 100000000000

/-! ## Data model -/

/-- The struct `Circle`: centre and radius. -/
structure Circle (F : Type) where
  x : F
  y : F
  r : F

/-- The struct `Ray`: origin and direction vector. -/
structure Ray (F : Type) where
  start_x : F
  start_y : F
  dx : F
  dy : F

/-- The struct `SDL_Rect`: corner and extent. -/
structure SDL_Rect where
  x : Int
  y : Int
  w : Int
  h : Int
  deriving DecidableEq, Repr

/-- The pixel surface, as the list of the fills made on it (rectangle and colour). -/
abbrev Surface := List (SDL_Rect × Nat)

/-- The call `SDL_FillRect(surface, &rect, color)`: one more fill on the surface. -/
def SDL_FillRect (surface : Surface) (rect : SDL_Rect) (color : Nat) : Surface :=
  surface ++ [(rect, color)]

/-- The pixels a rectangle covers. -/
def SDL_Rect.covers (rect : SDL_Rect) (px py : Int) : Prop :=
  rect.x ≤ px ∧ px < rect.x + rect.w ∧ rect.y ≤ py ∧ py < rect.y + rect.h

/-- The least value of an `int`, `INT_MIN`. -/
def INT_MIN : Int := -2147483648

/-- The greatest value of an `int`, `INT_MAX`. -/
def INT_MAX : Int := 2147483647

/-- The value an `int` holds when the exact result of its arithmetic is `n`: the 32-bit
arithmetic of the compiled program wraps modulo `2^32`. -/
def wrap_int (n : Int) : Int := (n + 2147483648) % 4294967296 - 2147483648

/-- The cast `(int)` of a `double`: truncation toward zero.  When the truncated value is not an
`int` the cast is undefined in C; the model takes the value that the conversion instruction of
x86-64 gives, `INT_MIN`. -/
def toInt {F : Type} [LinearOrderedField F] [FloorRing F] (v : F) : Int :=
  let n : Int := if 0 ≤ v then ⌊v⌋ else ⌈v⌉
  if INT_MIN ≤ n ∧ n ≤ INT_MAX then n else INT_MIN

/-- The values of the loop variable of `for (int k = lo; k <= hi; k++)`, in order. -/
def intRange (lo hi : Int) : List Int :=
  (List.range (hi + 1 - lo).toNat).map (fun (k : Nat) => lo + (k : Int))

/-! ## Drawing -/

/-- The function `safe_fill_rect`: the fill is made only when the corner is on the canvas. -/
def safe_fill_rect (surface : Surface) (x y w h : Int) (color : Nat) : Surface :=
  if x ≥ 0 ∧ x < (WIDTH : Int) ∧ y ≥ 0 ∧ y < (HEIGHT : Int) then
    SDL_FillRect surface (SDL_Rect.mk x y w h) color
  else
    surface

/-- The half-width `(int)sqrt(v)` of a scanline of `FillCircle`, for the `int` value `v` of
`r * r - y * y`.  The square root of a negative number is NaN, and the cast of NaN is `INT_MIN`
like every cast out of the range of `int`. -/
def x_extent_of {F : Type} [LinearOrderedField F] [FloorRing F] (sqrt : F → F) (v : Int) : Int :=
  if v < 0 then INT_MIN else toInt (sqrt (v : F))

/-- The function `FillCircle`: one scanline per row offset `y`, one fill per pixel.  All the
arithmetic on `r`, `y`, `x`, `cx` and `cy` is `int` arithmetic.  (With `r = INT_MAX` the
increment `y++` overflows after the last row, which C leaves undefined; the model ends the
loop there.) -/
def FillCircle {F : Type} [LinearOrderedField F] [FloorRing F] (sqrt : F → F)
    (surface : Surface) (circle : Circle F) (color : Nat) : Surface :=
  let cx := toInt circle.x
  let cy := toInt circle.y
  let r := toInt circle.r
  (intRange (wrap_int (-r)) r).foldl
    (fun s y =>
      let x_extent := x_extent_of sqrt (wrap_int (r * r - y * y))
      (intRange (wrap_int (-x_extent)) x_extent).foldl
        (fun s2 x => safe_fill_rect s2 (wrap_int (cx + x)) (wrap_int (cy + y)) 1 1 color) s)
    surface

/-! ## Ray field -/

/-- The loop of `generate_rays` for a field of `N` rays: ray `i` starts at the light and has
the direction of the angle `(i / N) * 2 * PI`. -/
def generate_rays_n {F : Type} [LinearOrderedField F] (cos sin : F → F) (N : Nat)
    (light_source : Circle F) : List (Ray F) :=
  (List.range N).map (fun (i : Nat) =>
    let angle := ((i : F) / (N : F)) * 2 * PI
    Ray.mk light_source.x light_source.y (cos angle) (sin angle))

/-- The function `generate_rays`: the field of `RAYS_NUMBER` rays. -/
def generate_rays {F : Type} [LinearOrderedField F] (cos sin : F → F)
    (light_source : Circle F) : List (Ray F) :=
  generate_rays_n cos sin RAYS_NUMBER light_source

/-! ## Intersections -/

/-- The function `intersect_ray_circle`: the closest positive root of the quadratic, or `-1`. -/
def intersect_ray_circle {F : Type} [LinearOrderedField F] (sqrt : F → F)
    (ray : Ray F) (circle : Circle F) : F :=
  let dx := ray.start_x - circle.x
  let dy := ray.start_y - circle.y
  let a := ray.dx * ray.dx + ray.dy * ray.dy
  let b := 2 * (dx * ray.dx + dy * ray.dy)
  let c := dx * dx + dy * dy - circle.r * circle.r
  let discriminant := b * b - 4 * a * c
  if discriminant < 0 then -1
  else
    let t1 := (-b - sqrt discriminant) / (2 * a)
    let t2 := (-b + sqrt discriminant) / (2 * a)
    if t1 > 0 then t1
    else if t2 > 0 then t2
    else -1

/-- One of the two blocks of `intersect_ray_screen`: when the direction component `d` is not
zero, the interval `(t_min, t_max)` is cut to the slab `[0, size]` of the axis. -/
def clip_axis {F : Type} [LinearOrderedField F] (start d size : F)
    (t : F × WithTop F) : F × WithTop F :=
  if d ≠ 0 then
    let t1 := -start / d
    let t2 := (size - start) / d
    let lo := if t1 > t2 then t2 else t1
    let hi := if t1 > t2 then t1 else t2
    (max t.1 lo, min t.2 (hi : WithTop F))
  else
    t

/-- The function `intersect_ray_screen` on a canvas of width `W` and height `H`. -/
def intersect_ray_screen_in {F : Type} [LinearOrderedField F] (W H : F)
    (ray : Ray F) : WithTop F :=
  let t0 : F × WithTop F := (0, ⊤)
  let tx := clip_axis ray.start_x ray.dx W t0
  let ty := clip_axis ray.start_y ray.dy H tx
  if ((ty.1 : WithTop F) ≤ ty.2) ∧ (0 < ty.2) then ty.2 else ((-1 : F) : WithTop F)

/-- The function `intersect_ray_screen`, on the canvas `WIDTH` by `HEIGHT`. -/
def intersect_ray_screen {F : Type} [LinearOrderedField F] (ray : Ray F) : WithTop F :=
  intersect_ray_screen_in (WIDTH : F) (HEIGHT : F) ray

/-- The draw length `max_t` of `FillRays`, from the two intersection results. -/
def max_t_of {F : Type} [LinearOrderedField F] (obstacle_t : F) (screen_t : WithTop F) :
    WithTop F :=
  if 0 < obstacle_t ∧ (screen_t < 0 ∨ (obstacle_t : WithTop F) < screen_t) then
    (obstacle_t : WithTop F)
  else
    screen_t

/-- The draw length `max_t` that `FillRays` computes for one ray of the field. -/
def FillRays_max_t {F : Type} [LinearOrderedField F] (sqrt : F → F)
    (ray : Ray F) (obstacle : Circle F) : WithTop F :=
  let obstacle_t := intersect_ray_circle sqrt ray obstacle
  let screen_t := intersect_ray_screen ray
  max_t_of obstacle_t screen_t

/-! ## Ray drawing -/

/-- The colour `COLOR_WHITE`. -/
def COLOR_WHITE : Nat := 0xffffffff

/-- The colour `COLOR_BLACK`. -/
def COLOR_BLACK : Nat := 0x00000000

/-- The colour `COLOR_RAY` of the main square of a sample. -/
def COLOR_RAY : Nat := 0xffd43b

/-- The colour `COLOR_RAY_BLUR` of the blur square of a sample. -/
def COLOR_RAY_BLUR : Nat := 0xbd6800

/-- The local `step_size` of `FillRays`, `2.0`. -/
def step_size {F : Type} [LinearOrderedField F] : F := 2

/-- The local `blur_size` of `FillRays`, `1.5 * RAY_THICKNESS`. -/
def blur_size {F : Type} [LinearOrderedField F] : F := 3 / 2 * (RAY_THICKNESS : F)

/-- The body of the step loop of `FillRays` after the `break` test, at parameter `t`: the pixel
`(x, y)` of the sample, the blur square and then the main square.  The `double` arguments of
the first call are cast to the `int` parameters of `safe_fill_rect`. -/
def draw_sample {F : Type} [LinearOrderedField F] [FloorRing F]
    (surface : Surface) (ray : Ray F) (t : F) (color blur_color : Nat) : Surface :=
  let x := toInt (ray.start_x + t * ray.dx)
  let y := toInt (ray.start_y + t * ray.dy)
  let s1 := safe_fill_rect surface
    (toInt ((x : F) - blur_size / 2)) (toInt ((y : F) - blur_size / 2))
    (toInt (blur_size : F)) (toInt (blur_size : F)) blur_color
  safe_fill_rect s1 x y (RAY_THICKNESS : Int) (RAY_THICKNESS : Int) color

/-- The number `steps` of `FillRays`, `(int)(max_t / step_size)`.  Half of `INFINITY` is
`INFINITY`, and its cast is `INT_MIN` like every cast out of the range of `int`. -/
def steps_of {F : Type} [LinearOrderedField F] [FloorRing F] : WithTop F → Int
  | none => INT_MIN
  | some max_t => toInt (max_t / step_size)

/-- The parameters `t = step * step_size` at which the step loop of `FillRays` runs its body:
the steps `0, …, steps - 1`, up to the first one with `t > max_t` (the `break`). -/
def sample_params {F : Type} [LinearOrderedField F] [FloorRing F] (max_t : WithTop F) : List F :=
  ((intRange 0 (steps_of max_t - 1)).map (fun (step : Int) => (step : F) * step_size)).takeWhile
    (fun t => decide (¬ (t : WithTop F) > max_t))

/-- The body of the ray loop of `FillRays`, for one ray. -/
def FillRays_ray {F : Type} [LinearOrderedField F] [FloorRing F] (sqrt : F → F)
    (surface : Surface) (ray : Ray F) (color blur_color : Nat) (obstacle : Circle F) : Surface :=
  let max_t := FillRays_max_t sqrt ray obstacle
  if max_t ≤ 0 then surface
  else (sample_params max_t).foldl (fun s t => draw_sample s ray t color blur_color) surface

/-- The function `FillRays`: every ray of the field is drawn in turn. -/
def FillRays {F : Type} [LinearOrderedField F] [FloorRing F] (sqrt : F → F)
    (surface : Surface) (rays : List (Ray F)) (color blur_color : Nat) (obstacle : Circle F) :
    Surface :=
  rays.foldl (fun s ray => FillRays_ray sqrt s ray color blur_color obstacle) surface

/-- The colour of a pixel of the surface: the colour of the last fill that covers it. -/
def pixel_color : Surface → Int → Int → Option Nat
  | [], _, _ => none
  | op :: rest, px, py =>
    match pixel_color rest px py with
    | some c => some c
    | none =>
      if op.1.x ≤ px ∧ px < op.1.x + op.1.w ∧ op.1.y ≤ py ∧ py < op.1.y + op.1.h then some op.2
      else none

/-! ## Simulation loop -/

/-- The events that `main` tells apart: `SDL_QUIT`, `SDL_MOUSEMOTION` with the button state and
the pointer position, and every other event. -/
inductive SDL_Event where
  | quit : SDL_Event
  | mousemotion (state : Nat) (x y : Int) : SDL_Event
  | other : SDL_Event

/-- The variables of `main` that change in the loop, and the count of the calls of
`generate_rays` made so far (a ghost variable: it records when the ray field is made). -/
structure Sim (F : Type) where
  light_source : Circle F
  shadow_circle : Circle F
  rays : List (Ray F)
  rays_need_update : Bool
  t : F
  simulation_running : Bool
  surface : Surface
  generate_rays_calls : Nat

/-- The local `ellipse_a` of `main`. -/
def ellipse_a {F : Type} [LinearOrderedField F] : F := 480

/-- The local `ellipse_b` of `main`. -/
def ellipse_b {F : Type} [LinearOrderedField F] : F := 350

/-- The local `ellipse_center_x` of `main`, `WIDTH / 2.0`. -/
def ellipse_center_x {F : Type} [LinearOrderedField F] : F := (WIDTH : F) / 2

/-- The local `ellipse_center_y` of `main`, `HEIGHT / 2.0`. -/
def ellipse_center_y {F : Type} [LinearOrderedField F] : F := (HEIGHT : F) / 2

/-- The local `speed` of `main`, `0.022`. -/
def speed {F : Type} [LinearOrderedField F] : F := 22 / 1000

/-- The rectangle `erase_rect` of `main`, the whole canvas. -/
def erase_rect : SDL_Rect := SDL_Rect.mk 0 0 (WIDTH : Int) (HEIGHT : Int)

/-- The position that the loop of `main` gives to the obstacle at phase `t`. -/
def orbit_position {F : Type} [LinearOrderedField F] (cos sin : F → F) (t : F) : F × F :=
  (ellipse_center_x + ellipse_a * cos t, ellipse_center_y + ellipse_b * sin t)

/-- The state of `main` when it enters the loop, on a given surface. -/
def main_init {F : Type} [LinearOrderedField F] (cos sin : F → F) (surface : Surface) : Sim F :=
  Sim.mk (Circle.mk 200 200 40) (Circle.mk 550 300 140)
    (generate_rays cos sin (Circle.mk 200 200 40)) false 0 true surface 1

/-- The body of the event loop of `main`, for one polled event. -/
def handle_event {F : Type} [LinearOrderedField F] (s : Sim F) (event : SDL_Event) : Sim F :=
  match event with
  | SDL_Event.quit =>
    Sim.mk s.light_source s.shadow_circle s.rays s.rays_need_update s.t false s.surface
      s.generate_rays_calls
  | SDL_Event.mousemotion state x y =>
    if state ≠ 0 then
      Sim.mk (Circle.mk (x : F) (y : F) s.light_source.r) s.shadow_circle s.rays true s.t
        s.simulation_running s.surface s.generate_rays_calls
    else s
  | SDL_Event.other => s

/-- The event loop of `main`: the events queued for the frame are drained in order. -/
def poll_events {F : Type} [LinearOrderedField F] (s : Sim F) (events : List SDL_Event) : Sim F :=
  events.foldl handle_event s

/-- The update of the ray field in `main`: when the flag is set, `generate_rays` is called
(one more call) and the flag is cleared. -/
def update_rays {F : Type} [LinearOrderedField F] (cos sin : F → F) (s : Sim F) : Sim F :=
  if s.rays_need_update then
    Sim.mk s.light_source s.shadow_circle (generate_rays cos sin s.light_source) false s.t
      s.simulation_running s.surface (s.generate_rays_calls + 1)
  else s

/-- The drawing of a frame in `main`: the canvas is cleared, the rays are drawn against the
obstacle, then the two circles. -/
def render {F : Type} [LinearOrderedField F] [FloorRing F] (sqrt : F → F) (s : Sim F) : Sim F :=
  let s0 := SDL_FillRect s.surface erase_rect COLOR_BLACK
  let s1 := FillRays sqrt s0 s.rays COLOR_RAY COLOR_RAY_BLUR s.shadow_circle
  let s2 := FillCircle sqrt s1 s.light_source COLOR_WHITE
  let s3 := FillCircle sqrt s2 s.shadow_circle COLOR_WHITE
  Sim.mk s.light_source s.shadow_circle s.rays s.rays_need_update s.t s.simulation_running s3
    s.generate_rays_calls

/-- The move of the obstacle along its orbit at the end of a frame of `main`. -/
def advance {F : Type} [LinearOrderedField F] (cos sin : F → F) (s : Sim F) : Sim F :=
  Sim.mk s.light_source
    (Circle.mk (orbit_position cos sin s.t).1 (orbit_position cos sin s.t).2 s.shadow_circle.r)
    s.rays s.rays_need_update (s.t + speed) s.simulation_running s.surface
    s.generate_rays_calls

/-- The state of `main` at the call of `FillRays` in a frame that drains `events`. -/
def at_FillRays {F : Type} [LinearOrderedField F] (cos sin : F → F) (s : Sim F)
    (events : List SDL_Event) : Sim F :=
  update_rays cos sin (poll_events s events)

/-- One pass through the body of the loop of `main` (the pacing of the frame apart). -/
def frame {F : Type} [LinearOrderedField F] [FloorRing F] (sqrt cos sin : F → F) (s : Sim F)
    (events : List SDL_Event) : Sim F :=
  advance cos sin (render sqrt (at_FillRays cos sin s events))

/-- The loop of `main`, one list of queued events per frame; it stops at the first frame that
starts with `simulation_running` cleared. -/
def main_loop {F : Type} [LinearOrderedField F] [FloorRing F] (sqrt cos sin : F → F) :
    Sim F → List (List SDL_Event) → Sim F
  | s, [] => s
  | s, events :: rest =>
    if s.simulation_running then main_loop sqrt cos sin (frame sqrt cos sin s events) rest
    else s

/-- The record of the frames that the loop of `main` runs: for each, the events it drains, the
state at the head of the loop and the state at its call of `FillRays`. -/
def frame_log {F : Type} [LinearOrderedField F] [FloorRing F] (sqrt cos sin : F → F) :
    Sim F → List (List SDL_Event) → List (List SDL_Event × Sim F × Sim F)
  | _, [] => []
  | s, events :: rest =>
    if s.simulation_running then
      (events, s, at_FillRays cos sin s events)
        :: frame_log sqrt cos sin (frame sqrt cos sin s events) rest
    else []

/-! ## Predicates of the specification -/

/-- The point of the ray at parameter `t` lies on the circle. -/
def OnCircle {F : Type} [LinearOrderedField F] (ray : Ray F) (circle : Circle F) (t : F) : Prop :=
  (ray.start_x + t * ray.dx - circle.x) ^ 2 + (ray.start_y + t * ray.dy - circle.y) ^ 2
    = circle.r ^ 2

/-- The origin of the ray is strictly outside the circle. -/
def OriginOutside {F : Type} [LinearOrderedField F] (ray : Ray F) (circle : Circle F) : Prop :=
  circle.r ^ 2 < (ray.start_x - circle.x) ^ 2 + (ray.start_y - circle.y) ^ 2

/-- The distance from the centre of the circle to the infinite line through the ray. -/
def lineDistance {F : Type} [LinearOrderedField F] (sqrt : F → F) (ray : Ray F)
    (circle : Circle F) : F :=
  |(circle.x - ray.start_x) * ray.dy - (circle.y - ray.start_y) * ray.dx|
    / sqrt (ray.dx * ray.dx + ray.dy * ray.dy)

/-- The point of the ray at parameter `t` is in the closed rectangle `[0,W] × [0,H]`. -/
def InScreen {F : Type} [LinearOrderedField F] (W H : F) (ray : Ray F) (t : F) : Prop :=
  0 ≤ ray.start_x + t * ray.dx ∧ ray.start_x + t * ray.dx ≤ W
    ∧ 0 ≤ ray.start_y + t * ray.dy ∧ ray.start_y + t * ray.dy ≤ H

/-- The point of the ray at parameter `t` is on the boundary lines of `[0,W] × [0,H]`. -/
def OnScreenEdge {F : Type} [LinearOrderedField F] (W H : F) (ray : Ray F) (t : F) : Prop :=
  ray.start_x + t * ray.dx = 0 ∨ ray.start_x + t * ray.dx = W
    ∨ ray.start_y + t * ray.dy = 0 ∨ ray.start_y + t * ray.dy = H

/-- The draw length as the specification words it: the screen-boundary distance, unless the
obstacle distance is valid (not the sentinel `-1`) and strictly less than it. -/
def max_t_spec {F : Type} [LinearOrderedField F] (obstacle_t : F) (screen_t : WithTop F) :
    WithTop F :=
  if obstacle_t ≠ -1 ∧ (obstacle_t : WithTop F) < screen_t then (obstacle_t : WithTop F)
  else screen_t

/-- The forward half-line of the ray comes within the radius of the centre of the circle. -/
def PassesWithin {F : Type} [LinearOrderedField F] (ray : Ray F) (circle : Circle F) : Prop :=
  ∃ t, 0 ≤ t ∧
    (ray.start_x + t * ray.dx - circle.x) ^ 2 + (ray.start_y + t * ray.dy - circle.y) ^ 2
      ≤ circle.r ^ 2

/-- The light source of `main`. -/
def light_source_init {F : Type} [LinearOrderedField F] : Circle F := Circle.mk 200 200 40

/-- The obstacle of `main`, at its initial position. -/
def shadow_circle_init {F : Type} [LinearOrderedField F] : Circle F := Circle.mk 550 300 140

/-- A fill of one pixel of the canvas `[0,WIDTH) × [0,HEIGHT)`. -/
def OnCanvasPixel (op : SDL_Rect × Nat) : Prop :=
  op.1.w = 1 ∧ op.1.h = 1
    ∧ 0 ≤ op.1.x ∧ op.1.x < (WIDTH : Int) ∧ 0 ≤ op.1.y ∧ op.1.y < (HEIGHT : Int)

/-- The surface `s2` is the surface `s1` followed by fills that all satisfy `P`. -/
def ExtendsBy (P : SDL_Rect × Nat → Prop) (s1 s2 : Surface) : Prop :=
  ∃ ops : List (SDL_Rect × Nat), s2 = s1 ++ ops ∧ ∀ op ∈ ops, P op

/-- The angle of ray `i` in a field of `N` rays, as `generate_rays` computes it. -/
def ray_angle {F : Type} [LinearOrderedField F] (N i : Nat) : F :=
  ((i : F) / (N : F)) * 2 * PI

/-- The pixel `(x, y)` of the sample of a ray at parameter `t`, as `FillRays` computes it. -/
def sample_pixel {F : Type} [LinearOrderedField F] [FloorRing F] (ray : Ray F) (t : F) :
    Int × Int :=
  (toInt (ray.start_x + t * ray.dx), toInt (ray.start_y + t * ray.dy))

/-- The corner of the blur square of the sample of a ray at parameter `t`, as `FillRays`
passes it to `safe_fill_rect`. -/
def blur_pixel {F : Type} [LinearOrderedField F] [FloorRing F] (ray : Ray F) (t : F) :
    Int × Int :=
  (toInt (((sample_pixel ray t).1 : F) - blur_size / 2),
    toInt (((sample_pixel ray t).2 : F) - blur_size / 2))

/-- The pixel `(px, py)` is on the canvas `[0,WIDTH) × [0,HEIGHT)`. -/
def OnCanvas (px py : Int) : Prop :=
  0 ≤ px ∧ px < (WIDTH : Int) ∧ 0 ≤ py ∧ py < (HEIGHT : Int)

/-- A pointer-motion event with a pressed button. -/
def IsPressedMotion (event : SDL_Event) : Prop :=
  ∃ (state : Nat) (x y : Int), event = SDL_Event.mousemotion state x y ∧ state ≠ 0

/-! ## Theorems -/

/-- The coefficient `a` of the quadratic is positive when the direction is not zero. -/
lemma dir_sq_pos (ray : Ray ℝ) (hdir : ray.dx ≠ 0 ∨ ray.dy ≠ 0) :
    0 < ray.dx * ray.dx + ray.dy * ray.dy := by
  rcases hdir with h | h
  · have := mul_self_pos.mpr h
    nlinarith [mul_self_nonneg ray.dy]
  · have := mul_self_pos.mpr h
    nlinarith [mul_self_nonneg ray.dx]

/-- A real quadratic with positive leading coefficient and nonnegative discriminant factors
over its two roots. -/
lemma quad_factor (a b c t : ℝ) (ha : 0 < a) (hD : 0 ≤ b * b - 4 * a * c) :
    a * t ^ 2 + b * t + c
      = a * (t - (-b - Real.sqrt (b * b - 4 * a * c)) / (2 * a))
          * (t - (-b + Real.sqrt (b * b - 4 * a * c)) / (2 * a)) := by
  have hs := Real.mul_self_sqrt hD
  have ha0 : a ≠ 0 := ha.ne.symm
  field_simp
  nlinarith [hs]

/-- `OnCircle` is the vanishing of the quadratic of `intersect_ray_circle`. -/
lemma onCircle_iff (ray : Ray ℝ) (circle : Circle ℝ) (t : ℝ) :
    OnCircle ray circle t ↔
      (ray.dx * ray.dx + ray.dy * ray.dy) * t ^ 2
        + 2 * ((ray.start_x - circle.x) * ray.dx + (ray.start_y - circle.y) * ray.dy) * t
        + ((ray.start_x - circle.x) * (ray.start_x - circle.x)
            + (ray.start_y - circle.y) * (ray.start_y - circle.y) - circle.r * circle.r) = 0 := by
  unfold OnCircle
  constructor <;> intro h <;> linear_combination h

/-- The roots of a real quadratic with positive leading coefficient. -/
lemma quad_roots (a b c t : ℝ) (ha : 0 < a) (hD : 0 ≤ b * b - 4 * a * c) :
    a * t ^ 2 + b * t + c = 0 ↔
      t = (-b - Real.sqrt (b * b - 4 * a * c)) / (2 * a)
        ∨ t = (-b + Real.sqrt (b * b - 4 * a * c)) / (2 * a) := by
  rw [quad_factor a b c t ha hD, mul_eq_zero, mul_eq_zero, sub_eq_zero, sub_eq_zero]
  constructor
  · rintro ((h | h) | h)
    · exact absurd h ha.ne.symm
    · exact Or.inl h
    · exact Or.inr h
  · rintro (h | h)
    · exact Or.inl (Or.inr h)
    · exact Or.inr h

/-- A real quadratic with negative discriminant has no root. -/
lemma quad_no_root (a b c t : ℝ) (hD : b * b - 4 * a * c < 0) :
    a * t ^ 2 + b * t + c ≠ 0 := by
  intro h
  have hsq : (2 * a * t + b) ^ 2 = (b * b - 4 * a * c) + 4 * a * (a * t ^ 2 + b * t + c) := by
    ring
  rw [h] at hsq
  linarith [sq_nonneg (2 * a * t + b)]

/-- The two candidate roots are ordered. -/
lemma root_le_root (a b D : ℝ) (ha : 0 < a) :
    (-b - Real.sqrt D) / (2 * a) ≤ (-b + Real.sqrt D) / (2 * a) := by
  have hs := Real.sqrt_nonneg D
  apply div_le_div_of_nonneg_right _ (by linarith)
  linarith

/-- The selection made by `intersect_ray_circle`, on the quadratic `a t² + b t + c`. -/
lemma closest_positive_root (a b c : ℝ) (ha : 0 < a) (P : ℝ → Prop)
    (hP : ∀ t, P t ↔ a * t ^ 2 + b * t + c = 0) :
    let res : ℝ :=
      if b * b - 4 * a * c < 0 then -1
      else if (-b - Real.sqrt (b * b - 4 * a * c)) / (2 * a) > 0 then
        (-b - Real.sqrt (b * b - 4 * a * c)) / (2 * a)
      else if (-b + Real.sqrt (b * b - 4 * a * c)) / (2 * a) > 0 then
        (-b + Real.sqrt (b * b - 4 * a * c)) / (2 * a)
      else -1
    ((∃ t, 0 < t ∧ P t) → IsLeast {t | 0 < t ∧ P t} res)
      ∧ (res = -1 ↔ ¬ ∃ t, 0 < t ∧ P t) := by
  intro res
  by_cases hD : b * b - 4 * a * c < 0
  · have hres : res = -1 := if_pos hD
    have hno : ¬ ∃ t, 0 < t ∧ P t := by
      rintro ⟨t, _, ht⟩
      exact quad_no_root a b c t hD ((hP t).mp ht)
    exact ⟨fun h => absurd h hno, fun _ => hno, fun _ => hres⟩
  · have hD0 : 0 ≤ b * b - 4 * a * c := not_lt.mp hD
    have hle := root_le_root a b (b * b - 4 * a * c) ha
    have hroots : ∀ t, P t ↔ t = (-b - Real.sqrt (b * b - 4 * a * c)) / (2 * a)
        ∨ t = (-b + Real.sqrt (b * b - 4 * a * c)) / (2 * a) :=
      fun t => (hP t).trans (quad_roots a b c t ha hD0)
    by_cases h1 : (-b - Real.sqrt (b * b - 4 * a * c)) / (2 * a) > 0
    · have hres : res = (-b - Real.sqrt (b * b - 4 * a * c)) / (2 * a) := by
        simp only [res, if_neg hD, if_pos h1]
      rw [hres]
      refine ⟨fun _ => ⟨⟨h1, (hroots _).mpr (Or.inl rfl)⟩, ?_⟩, ?_⟩
      · rintro t ⟨_, ht⟩
        rcases (hroots t).mp ht with h | h
        · exact h.ge
        · rw [h]; exact hle
      · constructor
        · intro h; linarith
        · intro h; exact absurd ⟨_, h1, (hroots _).mpr (Or.inl rfl)⟩ h
    · by_cases h2 : (-b + Real.sqrt (b * b - 4 * a * c)) / (2 * a) > 0
      · have hres : res = (-b + Real.sqrt (b * b - 4 * a * c)) / (2 * a) := by
          simp only [res, if_neg hD, if_neg h1, if_pos h2]
        rw [hres]
        refine ⟨fun _ => ⟨⟨h2, (hroots _).mpr (Or.inr rfl)⟩, ?_⟩, ?_⟩
        · rintro t ⟨ht0, ht⟩
          rcases (hroots t).mp ht with h | h
          · rw [h] at ht0; exact absurd ht0 h1
          · exact h.ge
        · constructor
          · intro h; linarith
          · intro h; exact absurd ⟨_, h2, (hroots _).mpr (Or.inr rfl)⟩ h
      · have hres : res = -1 := by
          simp only [res, if_neg hD, if_neg h1, if_neg h2]
        have hno : ¬ ∃ t, 0 < t ∧ P t := by
          rintro ⟨t, ht0, ht⟩
          rcases (hroots t).mp ht with h | h
          · rw [h] at ht0; exact h1 ht0
          · rw [h] at ht0; exact h2 ht0
        exact ⟨fun h => absurd h hno, fun _ => hno, fun _ => hres⟩

/-- The result of `intersect_ray_circle` in terms of the positive parameters on the circle. -/
lemma intersect_ray_circle_spec (ray : Ray ℝ) (circle : Circle ℝ)
    (hdir : ray.dx ≠ 0 ∨ ray.dy ≠ 0) :
    ((∃ t, 0 < t ∧ OnCircle ray circle t) →
        IsLeast {t | 0 < t ∧ OnCircle ray circle t} (intersect_ray_circle Real.sqrt ray circle))
      ∧ (intersect_ray_circle Real.sqrt ray circle = -1 ↔
          ¬ ∃ t, 0 < t ∧ OnCircle ray circle t) :=
  closest_positive_root _ _ _ (dir_sq_pos ray hdir) _ (onCircle_iff ray circle)

/-- A circle behind the origin of the ray is not hit: the origin `(2,0)` is strictly outside the
unit circle at `(0,0)`, the line through the ray with direction `(1,0)` passes through the
centre (distance 0, not more than the radius 1), and yet `intersect_ray_circle` returns `-1`;
so C2 as stated fails, already on inputs that `double` computes exactly. -/
theorem intersect_ray_circle_none_iff_line_misses_counterexample :
    OriginOutside (Ray.mk (2 : ℝ) 0 1 0) (Circle.mk 0 0 1)
      ∧ intersect_ray_circle Real.sqrt (Ray.mk 2 0 1 0) (Circle.mk 0 0 1) = -1
      ∧ lineDistance Real.sqrt (Ray.mk 2 0 1 0) (Circle.mk 0 0 1) = 0
      ∧ ¬ (intersect_ray_circle Real.sqrt (Ray.mk 2 0 1 0) (Circle.mk 0 0 1) = -1 ↔
            (Circle.mk (0 : ℝ) 0 1).r < lineDistance Real.sqrt (Ray.mk 2 0 1 0) (Circle.mk 0 0 1)) := by
  have h4 : Real.sqrt 4 = 2 := by
    rw [show (4 : ℝ) = 2 ^ 2 by norm_num]
    exact Real.sqrt_sq (by norm_num)
  have hres : intersect_ray_circle Real.sqrt (Ray.mk 2 0 1 0) (Circle.mk 0 0 1) = -1 := by
    norm_num [intersect_ray_circle, h4]
  have hd : lineDistance Real.sqrt (Ray.mk 2 0 1 0) (Circle.mk (0 : ℝ) 0 1) = 0 := by
    norm_num [lineDistance]
  refine ⟨by norm_num [OriginOutside], hres, hd, ?_⟩
  intro h
  have := h.mp hres
  rw [hd] at this
  norm_num at this

/-- An axis with zero direction component is not clipped. -/
lemma clip_axis_zero (start size : ℝ) (t : ℝ × WithTop ℝ) :
    clip_axis start 0 size t = t := by
  simp [clip_axis]

/-- An axis with nonzero direction component: the interval is cut to the slab. -/
lemma clip_axis_ne (start d size : ℝ) (hd : d ≠ 0) (t : ℝ × WithTop ℝ) :
    clip_axis start d size t
      = (max t.1 (min (-start / d) ((size - start) / d)),
          min t.2 ((max (-start / d) ((size - start) / d) : ℝ) : WithTop ℝ)) := by
  unfold clip_axis
  rw [if_pos hd]
  by_cases h : -start / d > (size - start) / d
  · simp only [if_pos h]
    rw [min_eq_right h.le, max_eq_left h.le]
  · simp only [if_neg h]
    rw [min_eq_left (not_lt.mp h), max_eq_right (not_lt.mp h)]

/-- The slab of an axis, in terms of the coordinate of the point. -/
lemma slab_iff (start d size t : ℝ) (hd : d ≠ 0) (hsize : 0 ≤ size) :
    (min (-start / d) ((size - start) / d) ≤ t ∧ t ≤ max (-start / d) ((size - start) / d))
      ↔ (0 ≤ start + t * d ∧ start + t * d ≤ size) := by
  rcases lt_or_gt_of_ne hd with h | h
  · have hle : (size - start) / d ≤ -start / d := by
      rw [div_le_div_right_of_neg h]; linarith
    rw [min_eq_right hle, max_eq_left hle, div_le_iff_of_neg h, le_div_iff_of_neg h]
    constructor <;> rintro ⟨h1, h2⟩ <;> constructor <;> linarith
  · have hle : -start / d ≤ (size - start) / d := by
      rw [div_le_div_iff_of_pos_right h]; linarith
    rw [min_eq_left hle, max_eq_right hle, div_le_iff₀ h, le_div_iff₀ h]
    constructor <;> rintro ⟨h1, h2⟩ <;> constructor <;> linarith

/-- The upper end of the slab of an axis is a parameter at which the coordinate is on one of
the two boundary lines of the axis. -/
lemma slab_hi_edge (start d size : ℝ) (hd : d ≠ 0) :
    start + max (-start / d) ((size - start) / d) * d = 0
      ∨ start + max (-start / d) ((size - start) / d) * d = size := by
  rcases max_choice (-start / d) ((size - start) / d) with h | h
  · left; rw [h]; field_simp
  · right; rw [h]; field_simp

/-- The interval left by the two clips of `intersect_ray_screen`, for a ray with nonzero
direction that starts in the rectangle: it is bounded, it holds exactly the parameters
`t ≥ 0` at which the ray is in the rectangle, and at its upper end the ray is on an edge. -/
lemma screen_clip (W H : ℝ) (ray : Ray ℝ) (hdir : ray.dx ≠ 0 ∨ ray.dy ≠ 0)
    (h0 : InScreen W H ray 0) :
    ∃ lo hi : ℝ,
      clip_axis ray.start_y ray.dy H (clip_axis ray.start_x ray.dx W (0, ⊤))
          = (lo, (hi : WithTop ℝ))
        ∧ (∀ t, (lo ≤ t ∧ t ≤ hi) ↔ (0 ≤ t ∧ InScreen W H ray t))
        ∧ OnScreenEdge W H ray hi := by
  obtain ⟨hx0, hxW, hy0, hyH⟩ := h0
  simp only [zero_mul, add_zero] at hx0 hxW hy0 hyH
  have hW : 0 ≤ W := le_trans hx0 hxW
  have hH : 0 ≤ H := le_trans hy0 hyH
  by_cases hdx : ray.dx = 0
  · have hdy : ray.dy ≠ 0 := by
      rcases hdir with h | h
      · exact absurd hdx h
      · exact h
    refine ⟨max 0 (min (-ray.start_y / ray.dy) ((H - ray.start_y) / ray.dy)),
      max (-ray.start_y / ray.dy) ((H - ray.start_y) / ray.dy), ?_, ?_, ?_⟩
    · rw [hdx, clip_axis_zero, clip_axis_ne _ _ _ hdy]
      simp
    · intro t
      have hs := slab_iff ray.start_y ray.dy H t hdy hH
      unfold InScreen
      rw [max_le_iff, hdx, mul_zero, add_zero]
      constructor
      · rintro ⟨⟨ht0, h1⟩, h2⟩
        obtain ⟨h3, h4⟩ := hs.mp ⟨h1, h2⟩
        exact ⟨ht0, hx0, hxW, h3, h4⟩
      · rintro ⟨ht0, _, _, h3, h4⟩
        obtain ⟨h1, h2⟩ := hs.mpr ⟨h3, h4⟩
        exact ⟨⟨ht0, h1⟩, h2⟩
    · unfold OnScreenEdge
      rcases slab_hi_edge ray.start_y ray.dy H hdy with h | h
      · exact Or.inr (Or.inr (Or.inl h))
      · exact Or.inr (Or.inr (Or.inr h))
  · by_cases hdy : ray.dy = 0
    · refine ⟨max 0 (min (-ray.start_x / ray.dx) ((W - ray.start_x) / ray.dx)),
        max (-ray.start_x / ray.dx) ((W - ray.start_x) / ray.dx), ?_, ?_, ?_⟩
      · rw [hdy, clip_axis_zero, clip_axis_ne _ _ _ hdx]
        simp
      · intro t
        have hs := slab_iff ray.start_x ray.dx W t hdx hW
        unfold InScreen
        rw [max_le_iff, hdy, mul_zero, add_zero]
        constructor
        · rintro ⟨⟨ht0, h1⟩, h2⟩
          obtain ⟨h3, h4⟩ := hs.mp ⟨h1, h2⟩
          exact ⟨ht0, h3, h4, hy0, hyH⟩
        · rintro ⟨ht0, h3, h4, _, _⟩
          obtain ⟨h1, h2⟩ := hs.mpr ⟨h3, h4⟩
          exact ⟨⟨ht0, h1⟩, h2⟩
      · unfold OnScreenEdge
        rcases slab_hi_edge ray.start_x ray.dx W hdx with h | h
        · exact Or.inl h
        · exact Or.inr (Or.inl h)
    · refine ⟨max (max 0 (min (-ray.start_x / ray.dx) ((W - ray.start_x) / ray.dx)))
          (min (-ray.start_y / ray.dy) ((H - ray.start_y) / ray.dy)),
        min (max (-ray.start_x / ray.dx) ((W - ray.start_x) / ray.dx))
          (max (-ray.start_y / ray.dy) ((H - ray.start_y) / ray.dy)), ?_, ?_, ?_⟩
      · rw [clip_axis_ne _ _ _ hdx, clip_axis_ne _ _ _ hdy]
        simp
      · intro t
        have hsx := slab_iff ray.start_x ray.dx W t hdx hW
        have hsy := slab_iff ray.start_y ray.dy H t hdy hH
        unfold InScreen
        rw [max_le_iff, max_le_iff, le_min_iff]
        constructor
        · rintro ⟨⟨⟨ht0, h1⟩, h2⟩, h3, h4⟩
          obtain ⟨h5, h6⟩ := hsx.mp ⟨h1, h3⟩
          obtain ⟨h7, h8⟩ := hsy.mp ⟨h2, h4⟩
          exact ⟨ht0, h5, h6, h7, h8⟩
        · rintro ⟨ht0, h5, h6, h7, h8⟩
          obtain ⟨h1, h3⟩ := hsx.mpr ⟨h5, h6⟩
          obtain ⟨h2, h4⟩ := hsy.mpr ⟨h7, h8⟩
          exact ⟨⟨⟨ht0, h1⟩, h2⟩, h3, h4⟩
      · unfold OnScreenEdge
        rcases min_choice (max (-ray.start_x / ray.dx) ((W - ray.start_x) / ray.dx))
          (max (-ray.start_y / ray.dy) ((H - ray.start_y) / ray.dy)) with h | h
        · rw [h]
          rcases slab_hi_edge ray.start_x ray.dx W hdx with h | h
          · exact Or.inl h
          · exact Or.inr (Or.inl h)
        · rw [h]
          rcases slab_hi_edge ray.start_y ray.dy H hdy with h | h
          · exact Or.inr (Or.inr (Or.inl h))
          · exact Or.inr (Or.inr (Or.inr h))

/-- The result of `intersect_ray_screen` for a ray with nonzero direction that starts in the
rectangle and stays in it for some positive parameter. -/
lemma intersect_ray_screen_in_spec (W H : ℝ) (ray : Ray ℝ) (hdir : ray.dx ≠ 0 ∨ ray.dy ≠ 0)
    (h0 : InScreen W H ray 0) (hinto : ∃ e, 0 < e ∧ InScreen W H ray e) :
    ∃ d : ℝ, intersect_ray_screen_in W H ray = (d : WithTop ℝ) ∧ 0 < d
      ∧ IsGreatest {t | 0 ≤ t ∧ InScreen W H ray t} d
      ∧ OnScreenEdge W H ray d := by
  obtain ⟨lo, hi, hclip, hiff, hedge⟩ := screen_clip W H ray hdir h0
  obtain ⟨e, he0, he⟩ := hinto
  have hlo : lo ≤ 0 := ((hiff 0).mpr ⟨le_refl 0, h0⟩).1
  have hhi : 0 < hi := lt_of_lt_of_le he0 ((hiff e).mpr ⟨he0.le, he⟩).2
  refine ⟨hi, ?_, hhi, ⟨(hiff hi).mp ⟨by linarith, le_refl hi⟩, ?_⟩, hedge⟩
  · simp only [intersect_ray_screen_in, hclip]
    rw [if_pos]
    exact ⟨WithTop.coe_le_coe.mpr (by linarith), WithTop.coe_pos.mpr hhi⟩
  · intro t ht
    exact ((hiff t).mpr ht).2

/-- The result of `intersect_ray_circle` is the sentinel or positive. -/
lemma intersect_ray_circle_sentinel_or_pos (ray : Ray ℝ) (circle : Circle ℝ) :
    intersect_ray_circle Real.sqrt ray circle = -1
      ∨ 0 < intersect_ray_circle Real.sqrt ray circle := by
  simp only [intersect_ray_circle]
  split_ifs with h1 h2 h3
  · exact Or.inl rfl
  · exact Or.inr h2
  · exact Or.inr h3
  · exact Or.inl rfl

/-- The result of `intersect_ray_screen` is the sentinel or positive. -/
lemma intersect_ray_screen_sentinel_or_pos (W H : ℝ) (ray : Ray ℝ) :
    intersect_ray_screen_in W H ray = ((-1 : ℝ) : WithTop ℝ)
      ∨ 0 < intersect_ray_screen_in W H ray := by
  simp only [intersect_ray_screen_in]
  split_ifs with h1
  · exact Or.inr h1.2
  · exact Or.inl rfl

/-- C5 as stated fails: for the ray from `(-10,500)` with direction `(-1,0)` and the obstacle
of radius 10 at `(-100,500)` the obstacle distance is 80 and the screen distance is the
sentinel, so the obstacle distance is not less than the screen distance, and yet `FillRays`
draws up to the obstacle distance 80, not up to the screen distance. -/
theorem max_t_unless_obstacle_closer_counterexample :
    intersect_ray_circle Real.sqrt (Ray.mk (-10) 500 (-1) 0) (Circle.mk (-100) 500 10) = 80
      ∧ intersect_ray_screen (Ray.mk (-10 : ℝ) 500 (-1) 0) = ((-1 : ℝ) : WithTop ℝ)
      ∧ FillRays_max_t Real.sqrt (Ray.mk (-10) 500 (-1) 0) (Circle.mk (-100) 500 10)
          = ((80 : ℝ) : WithTop ℝ)
      ∧ FillRays_max_t Real.sqrt (Ray.mk (-10) 500 (-1) 0) (Circle.mk (-100) 500 10)
          ≠ max_t_spec
              (intersect_ray_circle Real.sqrt (Ray.mk (-10) 500 (-1) 0) (Circle.mk (-100) 500 10))
              (intersect_ray_screen (Ray.mk (-10 : ℝ) 500 (-1) 0)) := by
  have h400 : Real.sqrt 400 = 20 := by
    rw [show (400 : ℝ) = 20 ^ 2 by norm_num]
    exact Real.sqrt_sq (by norm_num)
  have hc : intersect_ray_circle Real.sqrt (Ray.mk (-10) 500 (-1) 0) (Circle.mk (-100) 500 10)
      = 80 := by
    norm_num [intersect_ray_circle, h400]
  have hs : intersect_ray_screen (Ray.mk (-10 : ℝ) 500 (-1) 0) = ((-1 : ℝ) : WithTop ℝ) := by
    have hx : clip_axis (-10 : ℝ) (-1) ((WIDTH : ℕ) : ℝ) (0, ⊤) = (0, ((-10 : ℝ) : WithTop ℝ)) := by
      rw [clip_axis_ne _ _ _ (by norm_num), min_top_left]
      have e1 : max (0 : ℝ) (min (-(-10) / (-1)) (((WIDTH : ℕ) - (-10)) / (-1))) = 0 := by
        norm_num [WIDTH]
      have e2 : max (-(-10 : ℝ) / (-1)) ((((WIDTH : ℕ) : ℝ) - (-10)) / (-1)) = -10 := by
        norm_num [WIDTH]
      rw [e1, e2]
    simp only [intersect_ray_screen, intersect_ray_screen_in, hx, clip_axis_zero]
    rw [if_neg]
    rintro ⟨h, -⟩
    rw [WithTop.coe_le_coe] at h
    norm_num at h
  have hm : FillRays_max_t Real.sqrt (Ray.mk (-10) 500 (-1) 0) (Circle.mk (-100) 500 10)
      = ((80 : ℝ) : WithTop ℝ) := by
    simp only [FillRays_max_t, hc, hs, max_t_of]
    rw [if_pos]
    refine ⟨by norm_num, Or.inl ?_⟩
    rw [← WithTop.coe_zero, WithTop.coe_lt_coe]
    norm_num
  refine ⟨hc, hs, hm, ?_⟩
  rw [hm, hc, hs, max_t_spec, if_neg]
  · rw [Ne, WithTop.coe_eq_coe]
    norm_num
  · rw [WithTop.coe_lt_coe]
    norm_num

/-- C5, amended: the draw length `max_t` of `FillRays` is the screen-boundary distance, unless
the obstacle distance is valid (not the sentinel `-1`) and either the screen-boundary distance
is the sentinel or the obstacle distance is strictly less than it; then `max_t` is the obstacle
distance. -/
theorem max_t_unless_obstacle_valid_and_closer (ray : Ray ℝ) (obstacle : Circle ℝ) :
    FillRays_max_t Real.sqrt ray obstacle
      = if intersect_ray_circle Real.sqrt ray obstacle ≠ -1
            ∧ (intersect_ray_screen ray = ((-1 : ℝ) : WithTop ℝ)
                ∨ ((intersect_ray_circle Real.sqrt ray obstacle : ℝ) : WithTop ℝ)
                    < intersect_ray_screen ray)
        then ((intersect_ray_circle Real.sqrt ray obstacle : ℝ) : WithTop ℝ)
        else intersect_ray_screen ray := by
  have hvalid : 0 < intersect_ray_circle Real.sqrt ray obstacle
      ↔ intersect_ray_circle Real.sqrt ray obstacle ≠ -1 := by
    rcases intersect_ray_circle_sentinel_or_pos ray obstacle with h | h
    · rw [h]; norm_num
    · constructor
      · intro _ h2; linarith
      · intro _; exact h
  have hnone : intersect_ray_screen ray < 0
      ↔ intersect_ray_screen ray = ((-1 : ℝ) : WithTop ℝ) := by
    unfold intersect_ray_screen
    rcases intersect_ray_screen_sentinel_or_pos (WIDTH : ℝ) (HEIGHT : ℝ) ray with h | h
    · rw [h]
      constructor
      · intro _; rfl
      · intro _
        rw [← WithTop.coe_zero, WithTop.coe_lt_coe]
        norm_num
    · constructor
      · intro h2; exact absurd (lt_trans h h2) (lt_irrefl _)
      · intro h2
        rw [h2, ← WithTop.coe_zero, WithTop.coe_lt_coe] at h
        norm_num at h
  unfold FillRays_max_t max_t_of
  simp only [hvalid, hnone]

/-- A quadratic with positive leading and constant coefficients that is not positive at some
`t0 ≥ 0` has a nonnegative discriminant and a positive larger root. -/
lemma quad_pos_root (a b c t0 : ℝ) (ha : 0 < a) (hc : 0 < c) (ht0 : 0 ≤ t0)
    (hq : a * t0 ^ 2 + b * t0 + c ≤ 0) :
    0 ≤ b * b - 4 * a * c ∧ 0 < (-b + Real.sqrt (b * b - 4 * a * c)) / (2 * a) := by
  have hsq : (2 * a * t0 + b) ^ 2 = (b * b - 4 * a * c) + 4 * a * (a * t0 ^ 2 + b * t0 + c) := by
    ring
  have hprod : 4 * a * (a * t0 ^ 2 + b * t0 + c) ≤ 0 :=
    mul_nonpos_of_nonneg_of_nonpos (by linarith) hq
  have hD : 0 ≤ b * b - 4 * a * c := by
    linarith [sq_nonneg (2 * a * t0 + b)]
  have hbt : b * t0 < 0 := by
    have := mul_nonneg ha.le (sq_nonneg t0)
    linarith
  have hb : b < 0 := by
    by_contra hnb
    exact absurd (mul_nonneg (not_lt.mp hnb) ht0) (not_le.mpr hbt)
  refine ⟨hD, div_pos ?_ (by linarith)⟩
  linarith [Real.sqrt_nonneg (b * b - 4 * a * c)]

/-- When the forward half-line of a ray comes within the radius of the centre of a circle
and the origin is strictly outside it, `intersect_ray_circle` returns a positive parameter at
which the ray is on the circle. -/
lemma intersect_ray_circle_hits (ray : Ray ℝ) (circle : Circle ℝ)
    (hdir : ray.dx ≠ 0 ∨ ray.dy ≠ 0) (hout : OriginOutside ray circle)
    (hpass : PassesWithin ray circle) :
    0 < intersect_ray_circle Real.sqrt ray circle
      ∧ OnCircle ray circle (intersect_ray_circle Real.sqrt ray circle) := by
  have ha := dir_sq_pos ray hdir
  obtain ⟨t0, ht0, hle⟩ := hpass
  unfold OriginOutside at hout
  have hq0 : (ray.dx * ray.dx + ray.dy * ray.dy) * t0 ^ 2
      + 2 * ((ray.start_x - circle.x) * ray.dx + (ray.start_y - circle.y) * ray.dy) * t0
      + ((ray.start_x - circle.x) * (ray.start_x - circle.x)
          + (ray.start_y - circle.y) * (ray.start_y - circle.y) - circle.r * circle.r) ≤ 0 := by
    nlinarith [hle]
  have hc : 0 < (ray.start_x - circle.x) * (ray.start_x - circle.x)
      + (ray.start_y - circle.y) * (ray.start_y - circle.y) - circle.r * circle.r := by
    nlinarith [hout]
  obtain ⟨hD, h2⟩ := quad_pos_root _ _ _ t0 ha hc ht0 hq0
  have hex : ∃ t, 0 < t ∧ OnCircle ray circle t :=
    ⟨_, h2, (onCircle_iff ray circle _).mpr ((quad_roots _ _ _ _ ha hD).mpr (Or.inr rfl))⟩
  have hleast := (intersect_ray_circle_spec ray circle hdir).1 hex
  exact ⟨hleast.1.1, hleast.1.2⟩

/-- A point on a circle is within the radius of the centre on each axis. -/
lemma on_circle_box (x y cx cy r : ℝ) (hr : 0 ≤ r) (h : (x - cx) ^ 2 + (y - cy) ^ 2 = r ^ 2) :
    cx - r ≤ x ∧ x ≤ cx + r ∧ cy - r ≤ y ∧ y ≤ cy + r := by
  have hx := abs_le_of_sq_le_sq' (by nlinarith [sq_nonneg (y - cy)] : (x - cx) ^ 2 ≤ r ^ 2) hr
  have hy := abs_le_of_sq_le_sq' (by nlinarith [sq_nonneg (x - cx)] : (y - cy) ^ 2 ≤ r ^ 2) hr
  refine ⟨by linarith [hx.1], by linarith [hx.2], by linarith [hy.1], by linarith [hy.2]⟩

/-- Occlusion for one ray: a ray with nonzero direction that starts at the light `(200,200)`
and whose forward half-line comes within 140 of `(550,300)` is drawn up to the obstacle, and
that is strictly less than its screen-boundary distance. -/
lemma occluded_ray (ray : Ray ℝ) (hx : ray.start_x = 200) (hy : ray.start_y = 200)
    (hdir : ray.dx ≠ 0 ∨ ray.dy ≠ 0) (hpass : PassesWithin ray shadow_circle_init) :
    FillRays_max_t Real.sqrt ray shadow_circle_init
        = ((intersect_ray_circle Real.sqrt ray shadow_circle_init : ℝ) : WithTop ℝ)
      ∧ FillRays_max_t Real.sqrt ray shadow_circle_init < intersect_ray_screen ray := by
  have hout : OriginOutside ray shadow_circle_init := by
    unfold OriginOutside shadow_circle_init
    rw [hx, hy]
    norm_num
  obtain ⟨hpos, hon⟩ := intersect_ray_circle_hits ray shadow_circle_init hdir hout hpass
  obtain ⟨hb1, hb2, hb3, hb4⟩ := on_circle_box _ _ 550 300 140 (by norm_num) hon
  have h0 : InScreen ((WIDTH : ℕ) : ℝ) ((HEIGHT : ℕ) : ℝ) ray 0 := by
    unfold InScreen
    rw [hx, hy]
    norm_num [WIDTH, HEIGHT]
  obtain ⟨lo, hi, hclip, hiff, hedge⟩ := screen_clip _ _ ray hdir h0
  have hlo : lo ≤ 0 := ((hiff 0).mpr ⟨le_refl 0, h0⟩).1
  have hd_in : InScreen ((WIDTH : ℕ) : ℝ) ((HEIGHT : ℕ) : ℝ) ray
      (intersect_ray_circle Real.sqrt ray shadow_circle_init) := by
    unfold InScreen
    norm_num [WIDTH, HEIGHT]
    refine ⟨by linarith, by linarith, by linarith, by linarith⟩
  have hle : intersect_ray_circle Real.sqrt ray shadow_circle_init ≤ hi :=
    ((hiff _).mpr ⟨hpos.le, hd_in⟩).2
  have hne : intersect_ray_circle Real.sqrt ray shadow_circle_init ≠ hi := by
    intro heq
    rw [← heq] at hedge
    unfold OnScreenEdge at hedge
    norm_num [WIDTH, HEIGHT] at hedge
    rcases hedge with h | h | h | h <;> linarith
  have hlt : intersect_ray_circle Real.sqrt ray shadow_circle_init < hi :=
    lt_of_le_of_ne hle hne
  have hscreen : intersect_ray_screen ray = (hi : WithTop ℝ) := by
    simp only [intersect_ray_screen, intersect_ray_screen_in, hclip]
    rw [if_pos]
    exact ⟨WithTop.coe_le_coe.mpr (by linarith), WithTop.coe_pos.mpr (by linarith)⟩
  have hmax : FillRays_max_t Real.sqrt ray shadow_circle_init
      = ((intersect_ray_circle Real.sqrt ray shadow_circle_init : ℝ) : WithTop ℝ) := by
    simp only [FillRays_max_t, max_t_of, hscreen]
    rw [if_pos]
    exact ⟨hpos, Or.inr (WithTop.coe_lt_coe.mpr hlt)⟩
  refine ⟨hmax, ?_⟩
  rw [hmax, hscreen]
  exact WithTop.coe_lt_coe.mpr hlt

/-- Nothing added. -/
lemma extendsBy_refl (P : SDL_Rect × Nat → Prop) (s : Surface) : ExtendsBy P s s :=
  ⟨[], by simp, by simp⟩

/-- Fills added in two stages. -/
lemma extendsBy_trans (P : SDL_Rect × Nat → Prop) (s1 s2 s3 : Surface)
    (h12 : ExtendsBy P s1 s2) (h23 : ExtendsBy P s2 s3) : ExtendsBy P s1 s3 := by
  obtain ⟨o1, e1, p1⟩ := h12
  obtain ⟨o2, e2, p2⟩ := h23
  refine ⟨o1 ++ o2, by rw [e2, e1, List.append_assoc], ?_⟩
  intro op hop
  rcases List.mem_append.mp hop with h | h
  · exact p1 op h
  · exact p2 op h

/-- A loop whose body only adds fills that satisfy `P` only adds fills that satisfy `P`. -/
lemma extendsBy_foldl {α : Type} (P : SDL_Rect × Nat → Prop) (f : Surface → α → Surface)
    (hf : ∀ s a, ExtendsBy P s (f s a)) (l : List α) (s : Surface) :
    ExtendsBy P s (l.foldl f s) := by
  induction l generalizing s with
  | nil => exact extendsBy_refl P s
  | cons a l ih =>
    rw [List.foldl_cons]
    exact extendsBy_trans P _ _ _ (hf s a) (ih (f s a))

/-- The function `safe_fill_rect` with a 1 by 1 rectangle adds at most one fill, of one pixel
of the canvas and of the given colour. -/
lemma safe_fill_rect_pixel (s : Surface) (x y : Int) (color : Nat) :
    ExtendsBy (fun op => OnCanvasPixel op ∧ op.2 = color) s (safe_fill_rect s x y 1 1 color) := by
  unfold safe_fill_rect
  split_ifs with h
  · refine ⟨[(SDL_Rect.mk x y 1 1, color)], rfl, ?_⟩
    intro op hop
    rw [List.mem_singleton] at hop
    subst hop
    exact ⟨⟨rfl, rfl, h.1, h.2.1, h.2.2.1, h.2.2.2⟩, rfl⟩
  · exact extendsBy_refl _ s

/-- C7: whatever the circle (and whatever the surface holds already), `FillCircle` leaves the
earlier fills as they are and adds only fills of the given colour whose rectangle is 1 by 1
with its corner on the canvas, so every pixel it writes has `0 ≤ x < WIDTH` and
`0 ≤ y < HEIGHT`; a pixel of the disc that is off the canvas yields no fill. -/
theorem FillCircle_writes_on_canvas {F : Type} [LinearOrderedField F] [FloorRing F]
    (sqrt : F → F) (surface : Surface) (circle : Circle F) (color : Nat) :
    ∃ ops : List (SDL_Rect × Nat),
      FillCircle sqrt surface circle color = surface ++ ops
        ∧ ∀ op ∈ ops, op.2 = color ∧ OnCanvasPixel op
            ∧ ∀ px py : Int, op.1.covers px py →
                (px = op.1.x ∧ py = op.1.y)
                  ∧ 0 ≤ px ∧ px < (WIDTH : Int) ∧ 0 ≤ py ∧ py < (HEIGHT : Int) := by
  have h : ExtendsBy (fun op => OnCanvasPixel op ∧ op.2 = color) surface
      (FillCircle sqrt surface circle color) := by
    unfold FillCircle
    apply extendsBy_foldl
    intro s y
    apply extendsBy_foldl
    intro s2 x
    exact safe_fill_rect_pixel s2 _ _ color
  obtain ⟨ops, heq, hall⟩ := h
  refine ⟨ops, heq, ?_⟩
  intro op hop
  obtain ⟨hpix, hcol⟩ := hall op hop
  refine ⟨hcol, hpix, ?_⟩
  intro px py hcov
  obtain ⟨hw, hh, hx0, hx1, hy0, hy1⟩ := hpix
  obtain ⟨c1, c2, c3, c4⟩ := hcov
  rw [hw] at c2
  rw [hh] at c4
  have ex : px = op.1.x := by omega
  have ey : py = op.1.y := by omega
  refine ⟨⟨ex, ey⟩, ?_, ?_, ?_, ?_⟩ <;> omega

/-- Entry `i` of the field that `generate_rays` makes. -/
lemma generate_rays_n_getElem (N : Nat) (light : Circle ℝ) (i : Nat) (hi : i < N) :
    (generate_rays_n Real.cos Real.sin N light)[i]?
      = some (Ray.mk light.x light.y (Real.cos (ray_angle N i)) (Real.sin (ray_angle N i))) := by
  simp [generate_rays_n, ray_angle, List.getElem?_map, List.getElem?_range hi]

/-- Every entry of the field is an entry at some index below `N`. -/
lemma generate_rays_n_mem (N : Nat) (light : Circle ℝ) (ray : Ray ℝ)
    (h : ray ∈ generate_rays_n Real.cos Real.sin N light) :
    ∃ i, i < N ∧
      ray = Ray.mk light.x light.y (Real.cos (ray_angle N i)) (Real.sin (ray_angle N i)) := by
  unfold generate_rays_n at h
  obtain ⟨i, hi, rfl⟩ := List.mem_map.mp h
  exact ⟨i, List.mem_range.mp hi, rfl⟩

/-- The program's `PI` is a little above `π`. -/
lemma PI_bounds : Real.pi < (PI : ℝ) ∧ (PI : ℝ) < Real.pi + 3 / 10 ^ 13 := by
  have h1 := Real.pi_gt_d20
  have h2 := Real.pi_lt_d20
  unfold PI
  constructor
  · norm_num at h2 ⊢
    linarith
  · norm_num at h1 ⊢
    linarith

/-- Two different rays of the field of 500 have angles that differ by less than a full
turn, so they do not have the same cosine and sine. -/
lemma ray_angle_inj (i j : Nat) (hi : i < RAYS_NUMBER) (hj : j < RAYS_NUMBER)
    (hc : Real.cos (ray_angle RAYS_NUMBER i) = Real.cos (ray_angle RAYS_NUMBER j))
    (hs : Real.sin (ray_angle RAYS_NUMBER i) = Real.sin (ray_angle RAYS_NUMBER j)) :
    i = j := by
  obtain ⟨k, hk⟩ := Real.Angle.angle_eq_iff_two_pi_dvd_sub.mp (Real.Angle.cos_sin_inj hc hs)
  obtain ⟨hP1, hP2⟩ := PI_bounds
  have hpi := Real.pi_gt_three
  have hpi4 := Real.pi_lt_four
  unfold ray_angle RAYS_NUMBER at hk
  unfold RAYS_NUMBER at hi hj
  have hi' : (i : ℝ) ≤ 499 := by exact_mod_cast Nat.le_of_lt_succ hi
  have hj' : (j : ℝ) ≤ 499 := by exact_mod_cast Nat.le_of_lt_succ hj
  have hi0 : (0 : ℝ) ≤ i := Nat.cast_nonneg i
  have hj0 : (0 : ℝ) ≤ j := Nat.cast_nonneg j
  have hPpos : (0 : ℝ) < PI := by linarith
  have hdiff : (i : ℝ) / ((500 : ℕ) : ℝ) * 2 * PI - (j : ℝ) / ((500 : ℕ) : ℝ) * 2 * PI
      = ((i : ℝ) - j) * (PI / 250) := by
    push_cast
    ring
  rw [hdiff] at hk
  have hP250 : (0 : ℝ) < PI / 250 := by positivity
  -- the multiple `k` of the full turn is zero
  have hk0 : k = 0 := by
    have hub : ((i : ℝ) - j) * (PI / 250) < 2 * Real.pi := by
      have : ((i : ℝ) - j) * (PI / 250) ≤ 499 * (PI / 250) :=
        mul_le_mul_of_nonneg_right (by linarith) hP250.le
      linarith
    have hlb : -(2 * Real.pi) < ((i : ℝ) - j) * (PI / 250) := by
      have : (-499 : ℝ) * (PI / 250) ≤ ((i : ℝ) - j) * (PI / 250) :=
        mul_le_mul_of_nonneg_right (by linarith) hP250.le
      linarith
    rw [hk] at hub hlb
    have h1 : (k : ℝ) < 1 := by
      by_contra h
      have := mul_le_mul_of_nonneg_left (not_lt.mp h) (by linarith : (0:ℝ) ≤ 2 * Real.pi)
      linarith
    have h2 : (-1 : ℝ) < k := by
      by_contra h
      have := mul_le_mul_of_nonneg_left (not_lt.mp h) (by linarith : (0:ℝ) ≤ 2 * Real.pi)
      linarith
    have h1' : k < 1 := by exact_mod_cast h1
    have h2' : -1 < k := by exact_mod_cast h2
    omega
  rw [hk0] at hk
  simp only [Int.cast_zero, mul_zero] at hk
  rcases mul_eq_zero.mp hk with h | h
  · have : (i : ℝ) = j := by linarith
    exact_mod_cast this
  · exact absurd h hP250.ne.symm

/-- C8: for every light position, `generate_rays` makes a field of `RAYS_NUMBER` = 500 rays,
ray `i` starting at the centre of the light with the direction of the angle `i / 500` of the
full turn `2 * PI`, and two rays at different indices have different direction vectors. -/
theorem generate_rays_directions_distinct (light : Circle ℝ) :
    (generate_rays Real.cos Real.sin light).length = 500
      ∧ (∀ i : Nat, i < 500 →
          (generate_rays Real.cos Real.sin light)[i]?
            = some (Ray.mk light.x light.y
                (Real.cos (((i : ℝ) / 500) * 2 * PI)) (Real.sin (((i : ℝ) / 500) * 2 * PI))))
      ∧ (∀ i j : Nat, ∀ ri rj : Ray ℝ,
          (generate_rays Real.cos Real.sin light)[i]? = some ri →
          (generate_rays Real.cos Real.sin light)[j]? = some rj →
          i ≠ j → (ri.dx, ri.dy) ≠ (rj.dx, rj.dy)) := by
  refine ⟨by simp [generate_rays, generate_rays_n, RAYS_NUMBER], ?_, ?_⟩
  · intro i hi
    have := generate_rays_n_getElem RAYS_NUMBER light i hi
    simpa [generate_rays, ray_angle, RAYS_NUMBER] using this
  · intro i j ri rj hri hrj hij heq
    have hlen : (generate_rays Real.cos Real.sin light).length = RAYS_NUMBER := by
      simp [generate_rays, generate_rays_n]
    have hi : i < RAYS_NUMBER := by
      rw [← hlen]
      exact (List.getElem?_eq_some_iff.mp hri).1
    have hj : j < RAYS_NUMBER := by
      rw [← hlen]
      exact (List.getElem?_eq_some_iff.mp hrj).1
    unfold generate_rays at hri hrj
    rw [generate_rays_n_getElem RAYS_NUMBER light i hi] at hri
    rw [generate_rays_n_getElem RAYS_NUMBER light j hj] at hrj
    cases hri
    cases hrj
    simp only [Prod.mk.injEq] at heq
    exact hij (ray_angle_inj i j hi hj heq.1 heq.2)

/-- Witness of C8: rays 0 and 1 of the field of the initial light have different directions. -/
theorem generate_rays_directions_distinct_witness :
    (Real.cos (((0 : ℕ) : ℝ) / 500 * 2 * PI), Real.sin (((0 : ℕ) : ℝ) / 500 * 2 * PI))
      ≠ (Real.cos (((1 : ℕ) : ℝ) / 500 * 2 * PI), Real.sin (((1 : ℕ) : ℝ) / 500 * 2 * PI)) := by
  have h := generate_rays_directions_distinct (Circle.mk 200 200 40)
  exact h.2.2 0 1 _ _ (h.2.1 0 (by norm_num)) (h.2.1 1 (by norm_num)) (by norm_num)

/-- The sum of the cosines of the first `n` multiples of an angle, times `2 sin (θ / 2)`. -/
lemma sum_cos_multiples (θ : ℝ) (n : Nat) :
    2 * Real.sin (θ / 2) * ((List.range n).map (fun (i : Nat) => Real.cos ((i : ℝ) * θ))).sum
      = Real.sin (((n : ℝ) - 1 / 2) * θ) + Real.sin (θ / 2) := by
  induction n with
  | zero =>
    have : ((0 : ℕ) : ℝ) - 1 / 2 = -(1 / 2) := by norm_num
    simp only [List.range_zero, List.map_nil, List.sum_nil, mul_zero, this]
    rw [show -(1 / 2 : ℝ) * θ = -(θ / 2) by ring, Real.sin_neg]
    ring
  | succ n ih =>
    rw [List.range_succ, List.map_append, List.sum_append, mul_add, ih]
    simp only [List.map_cons, List.map_nil, List.sum_cons, List.sum_nil, add_zero]
    have h := Real.sin_sub_sin ((((n + 1 : ℕ) : ℝ) - 1 / 2) * θ) (((n : ℝ) - 1 / 2) * θ)
    have e1 : ((((n + 1 : ℕ) : ℝ) - 1 / 2) * θ - ((n : ℝ) - 1 / 2) * θ) / 2 = θ / 2 := by
      push_cast; ring
    have e2 : ((((n + 1 : ℕ) : ℝ) - 1 / 2) * θ + ((n : ℝ) - 1 / 2) * θ) / 2 = (n : ℝ) * θ := by
      push_cast; ring
    rw [e1, e2] at h
    linarith

/-- The sum of the sines of the first `n` multiples of an angle, times `2 sin (θ / 2)`. -/
lemma sum_sin_multiples (θ : ℝ) (n : Nat) :
    2 * Real.sin (θ / 2) * ((List.range n).map (fun (i : Nat) => Real.sin ((i : ℝ) * θ))).sum
      = Real.cos (θ / 2) - Real.cos (((n : ℝ) - 1 / 2) * θ) := by
  induction n with
  | zero =>
    have : ((0 : ℕ) : ℝ) - 1 / 2 = -(1 / 2) := by norm_num
    simp only [List.range_zero, List.map_nil, List.sum_nil, mul_zero, this]
    rw [show -(1 / 2 : ℝ) * θ = -(θ / 2) by ring, Real.cos_neg]
    ring
  | succ n ih =>
    rw [List.range_succ, List.map_append, List.sum_append, mul_add, ih]
    simp only [List.map_cons, List.map_nil, List.sum_cons, List.sum_nil, add_zero]
    have h := Real.cos_sub_cos (((n : ℝ) - 1 / 2) * θ) ((((n + 1 : ℕ) : ℝ) - 1 / 2) * θ)
    have e1 : (((n : ℝ) - 1 / 2) * θ - (((n + 1 : ℕ) : ℝ) - 1 / 2) * θ) / 2 = -(θ / 2) := by
      push_cast; ring
    have e2 : (((n : ℝ) - 1 / 2) * θ + (((n + 1 : ℕ) : ℝ) - 1 / 2) * θ) / 2 = (n : ℝ) * θ := by
      push_cast; ring
    rw [e1, e2, Real.sin_neg] at h
    linarith

/-- A lower bound on the sine of half the angular step of the field of 500 rays. -/
lemma sin_half_step_gt : 6 / 1000 < Real.sin ((PI : ℝ) / 250 / 2) := by
  have hx1 : (628 : ℝ) / 100000 < (PI : ℝ) / 250 / 2 := by
    unfold PI; norm_num
  have hx2 : (PI : ℝ) / 250 / 2 < 63 / 10000 := by
    unfold PI; norm_num
  have hx0 : (0 : ℝ) ≤ (PI : ℝ) / 250 / 2 := by linarith
  have hcube : ((PI : ℝ) / 250 / 2) ^ 3 ≤ (63 / 10000) ^ 3 := pow_le_pow_left₀ hx0 hx2.le 3
  have hsin := Real.sin_gt_sub_cube (by linarith : (0 : ℝ) < (PI : ℝ) / 250 / 2) (by linarith)
  norm_num at hcube
  linarith

/-- A quotient with a numerator of size `6e-13` and a denominator above `0.012` is below
`1e-9` in absolute value. -/
lemma small_quotient (S num den : ℝ) (h : den * S = num) (hden : 12 / 1000 < den)
    (hnum : |num| ≤ 6 / 10 ^ 13) : |S| < 1 / 10 ^ 9 := by
  have habs : den * |S| = |num| := by
    rw [← h, abs_mul, abs_of_pos (by linarith : (0 : ℝ) < den)]
  by_contra hcon
  have hge : (1 : ℝ) / 10 ^ 9 ≤ |S| := not_lt.mp hcon
  have : 12 / 1000 * (1 / 10 ^ 9 : ℝ) ≤ den * |S| :=
    mul_le_mul hden.le hge (by positivity) (by linarith)
  rw [habs] at this
  norm_num at this hnum
  linarith

/-- The directions of the field, as the cosines of the multiples of the angular step. -/
lemma generate_rays_dx (light : Circle ℝ) :
    (generate_rays Real.cos Real.sin light).map (fun r => r.dx)
      = (List.range 500).map (fun (i : Nat) => Real.cos ((i : ℝ) * ((PI : ℝ) / 250))) := by
  unfold generate_rays generate_rays_n RAYS_NUMBER
  rw [List.map_map]
  apply List.map_congr_left
  intro i _
  simp only [Function.comp]
  congr 1
  push_cast
  ring

/-- The directions of the field, as the sines of the multiples of the angular step. -/
lemma generate_rays_dy (light : Circle ℝ) :
    (generate_rays Real.cos Real.sin light).map (fun r => r.dy)
      = (List.range 500).map (fun (i : Nat) => Real.sin ((i : ℝ) * ((PI : ℝ) / 250))) := by
  unfold generate_rays generate_rays_n RAYS_NUMBER
  rw [List.map_map]
  apply List.map_congr_left
  intro i _
  simp only [Function.comp]
  congr 1
  push_cast
  ring

/-- The cosines of the 500 directions sum to less than `1e-9` in absolute value. -/
lemma sum_dx_small (light : Circle ℝ) :
    |((generate_rays Real.cos Real.sin light).map (fun r => r.dx)).sum| < 1 / 10 ^ 9 := by
  obtain ⟨hP1, hP2⟩ := PI_bounds
  rw [generate_rays_dx]
  have hT := sum_cos_multiples ((PI : ℝ) / 250) 500
  have harg : (((500 : ℕ) : ℝ) - 1 / 2) * ((PI : ℝ) / 250)
      = (2 * ((PI : ℝ) - Real.pi) - (PI : ℝ) / 250 / 2) + 2 * Real.pi := by
    push_cast; ring
  rw [harg, Real.sin_add_two_pi] at hT
  have hnum : Real.sin (2 * ((PI : ℝ) - Real.pi) - (PI : ℝ) / 250 / 2)
      + Real.sin ((PI : ℝ) / 250 / 2)
      = 2 * Real.sin ((PI : ℝ) - Real.pi)
          * Real.cos ((PI : ℝ) / 250 / 2 - ((PI : ℝ) - Real.pi)) := by
    have h := Real.sin_sub_sin ((PI : ℝ) / 250 / 2)
      ((PI : ℝ) / 250 / 2 - 2 * ((PI : ℝ) - Real.pi))
    have e1 : ((PI : ℝ) / 250 / 2 - ((PI : ℝ) / 250 / 2 - 2 * ((PI : ℝ) - Real.pi))) / 2
        = (PI : ℝ) - Real.pi := by ring
    have e2 : ((PI : ℝ) / 250 / 2 + ((PI : ℝ) / 250 / 2 - 2 * ((PI : ℝ) - Real.pi))) / 2
        = (PI : ℝ) / 250 / 2 - ((PI : ℝ) - Real.pi) := by ring
    rw [e1, e2] at h
    rw [← h, show 2 * ((PI : ℝ) - Real.pi) - (PI : ℝ) / 250 / 2
        = -((PI : ℝ) / 250 / 2 - 2 * ((PI : ℝ) - Real.pi)) by ring, Real.sin_neg]
    ring
  rw [hnum] at hT
  apply small_quotient _ _ _ hT (by linarith [sin_half_step_gt])
  rw [abs_mul, abs_mul, abs_of_pos (by norm_num : (0 : ℝ) < 2)]
  have hs : |Real.sin ((PI : ℝ) - Real.pi)| ≤ 3 / 10 ^ 13 := by
    refine le_trans Real.abs_sin_le_abs ?_
    rw [abs_of_pos (by linarith)]
    linarith
  have hc := Real.abs_cos_le_one ((PI : ℝ) / 250 / 2 - ((PI : ℝ) - Real.pi))
  have hs0 := abs_nonneg (Real.sin ((PI : ℝ) - Real.pi))
  have hc0 := abs_nonneg (Real.cos ((PI : ℝ) / 250 / 2 - ((PI : ℝ) - Real.pi)))
  have : 2 * |Real.sin ((PI : ℝ) - Real.pi)|
      * |Real.cos ((PI : ℝ) / 250 / 2 - ((PI : ℝ) - Real.pi))|
      ≤ 2 * (3 / 10 ^ 13) * 1 :=
    mul_le_mul (by linarith) hc hc0 (by norm_num)
  linarith

/-- The sines of the 500 directions sum to less than `1e-9` in absolute value. -/
lemma sum_dy_small (light : Circle ℝ) :
    |((generate_rays Real.cos Real.sin light).map (fun r => r.dy)).sum| < 1 / 10 ^ 9 := by
  obtain ⟨hP1, hP2⟩ := PI_bounds
  rw [generate_rays_dy]
  have hT := sum_sin_multiples ((PI : ℝ) / 250) 500
  have harg : (((500 : ℕ) : ℝ) - 1 / 2) * ((PI : ℝ) / 250)
      = (2 * ((PI : ℝ) - Real.pi) - (PI : ℝ) / 250 / 2) + 2 * Real.pi := by
    push_cast; ring
  rw [harg, Real.cos_add_two_pi] at hT
  have hnum : Real.cos ((PI : ℝ) / 250 / 2)
      - Real.cos (2 * ((PI : ℝ) - Real.pi) - (PI : ℝ) / 250 / 2)
      = -2 * Real.sin ((PI : ℝ) - Real.pi)
          * Real.sin ((PI : ℝ) / 250 / 2 - ((PI : ℝ) - Real.pi)) := by
    have h := Real.cos_sub_cos ((PI : ℝ) / 250 / 2)
      (2 * ((PI : ℝ) - Real.pi) - (PI : ℝ) / 250 / 2)
    have e1 : ((PI : ℝ) / 250 / 2 + (2 * ((PI : ℝ) - Real.pi) - (PI : ℝ) / 250 / 2)) / 2
        = (PI : ℝ) - Real.pi := by ring
    have e2 : ((PI : ℝ) / 250 / 2 - (2 * ((PI : ℝ) - Real.pi) - (PI : ℝ) / 250 / 2)) / 2
        = (PI : ℝ) / 250 / 2 - ((PI : ℝ) - Real.pi) := by ring
    rw [e1, e2] at h
    exact h
  rw [hnum] at hT
  apply small_quotient _ _ _ hT (by linarith [sin_half_step_gt])
  rw [abs_mul, abs_mul, abs_neg, abs_of_pos (by norm_num : (0 : ℝ) < 2)]
  have hs : |Real.sin ((PI : ℝ) - Real.pi)| ≤ 3 / 10 ^ 13 := by
    refine le_trans Real.abs_sin_le_abs ?_
    rw [abs_of_pos (by linarith)]
    linarith
  have hc := Real.abs_sin_le_one ((PI : ℝ) / 250 / 2 - ((PI : ℝ) - Real.pi))
  have hs0 := abs_nonneg (Real.sin ((PI : ℝ) - Real.pi))
  have hc0 := abs_nonneg (Real.sin ((PI : ℝ) / 250 / 2 - ((PI : ℝ) - Real.pi)))
  have : 2 * |Real.sin ((PI : ℝ) - Real.pi)|
      * |Real.sin ((PI : ℝ) / 250 / 2 - ((PI : ℝ) - Real.pi))|
      ≤ 2 * (3 / 10 ^ 13) * 1 :=
    mul_le_mul (by linarith) hc hc0 (by norm_num)
  linarith

/-- The sine and the cosine of an angle of size at most `1e-12`. -/
lemma small_angle (x : ℝ) (hx : |x| ≤ 1 / 10 ^ 12) :
    |Real.sin x| < 1 / 10 ^ 9 ∧ |Real.cos x - 1| < 1 / 10 ^ 9 := by
  constructor
  · refine lt_of_le_of_lt (le_trans Real.abs_sin_le_abs hx) ?_
    norm_num
  · have h1 := Real.cos_le_one x
    have h2 : 1 - x ^ 2 / 2 ≤ Real.cos x := Real.one_sub_sq_div_two_le_cos
    have h3 : x ^ 2 ≤ (1 / 10 ^ 12) ^ 2 := by
      rw [← sq_abs x]
      exact pow_le_pow_left₀ (abs_nonneg x) hx 2
    rw [abs_sub_comm, abs_of_nonneg (by linarith)]
    norm_num at h3 ⊢
    linarith

/-- The field of four rays. -/
lemma generate_rays_4 (light : Circle ℝ) :
    generate_rays_n Real.cos Real.sin 4 light
      = [Ray.mk light.x light.y (Real.cos (ray_angle 4 0)) (Real.sin (ray_angle 4 0)),
         Ray.mk light.x light.y (Real.cos (ray_angle 4 1)) (Real.sin (ray_angle 4 1)),
         Ray.mk light.x light.y (Real.cos (ray_angle 4 2)) (Real.sin (ray_angle 4 2)),
         Ray.mk light.x light.y (Real.cos (ray_angle 4 3)) (Real.sin (ray_angle 4 3))] := by
  rfl

/-- The two clips of `intersect_ray_screen` leave a bounded interval when the direction is
not zero. -/
lemma clip_finite (W H : ℝ) (ray : Ray ℝ) (hdir : ray.dx ≠ 0 ∨ ray.dy ≠ 0) :
    ∃ hi : ℝ, (clip_axis ray.start_y ray.dy H (clip_axis ray.start_x ray.dx W (0, ⊤))).2
      = (hi : WithTop ℝ) := by
  by_cases hdy : ray.dy = 0
  · have hdx : ray.dx ≠ 0 := by
      rcases hdir with h | h
      · exact h
      · exact absurd hdy h
    rw [hdy, clip_axis_zero, clip_axis_ne _ _ _ hdx]
    exact ⟨_, min_top_left _⟩
  · rw [clip_axis_ne _ _ _ hdy]
    by_cases hdx : ray.dx = 0
    · rw [hdx, clip_axis_zero]
      exact ⟨_, min_top_left _⟩
    · rw [clip_axis_ne _ _ _ hdx]
      simp only [min_top_left]
      exact ⟨_, (WithTop.coe_min _ _).symm⟩

/-- For a ray with nonzero direction the result of `intersect_ray_screen` is the sentinel or
a positive real. -/
lemma intersect_ray_screen_finite (ray : Ray ℝ) (hdir : ray.dx ≠ 0 ∨ ray.dy ≠ 0) :
    intersect_ray_screen ray = ((-1 : ℝ) : WithTop ℝ)
      ∨ ∃ d : ℝ, 0 < d ∧ intersect_ray_screen ray = (d : WithTop ℝ) := by
  obtain ⟨hi, hhi⟩ := clip_finite ((WIDTH : ℕ) : ℝ) ((HEIGHT : ℕ) : ℝ) ray hdir
  simp only [intersect_ray_screen, intersect_ray_screen_in]
  split_ifs with h
  · right
    rw [hhi] at h ⊢
    exact ⟨hi, WithTop.coe_pos.mp h.2, rfl⟩
  · left; rfl

/-- C13: for a ray with nonzero direction, `intersect_ray_circle` returns exactly `-1` or a
strictly positive value, and `intersect_ray_screen` returns exactly `-1` or a strictly positive
(finite) value; so neither returns `0` or a negative value other than `-1`. -/
theorem sentinel_or_positive (ray : Ray ℝ) (circle : Circle ℝ)
    (hdir : ray.dx ≠ 0 ∨ ray.dy ≠ 0) :
    (intersect_ray_circle Real.sqrt ray circle = -1
        ∨ 0 < intersect_ray_circle Real.sqrt ray circle)
      ∧ (intersect_ray_screen ray = ((-1 : ℝ) : WithTop ℝ)
          ∨ ∃ d : ℝ, 0 < d ∧ intersect_ray_screen ray = (d : WithTop ℝ))
      ∧ intersect_ray_circle Real.sqrt ray circle ≠ 0
      ∧ intersect_ray_screen ray ≠ 0
      ∧ (intersect_ray_circle Real.sqrt ray circle < 0 →
          intersect_ray_circle Real.sqrt ray circle = -1)
      ∧ (intersect_ray_screen ray < 0 → intersect_ray_screen ray = ((-1 : ℝ) : WithTop ℝ)) := by
  have hc := intersect_ray_circle_sentinel_or_pos ray circle
  have hs := intersect_ray_screen_finite ray hdir
  refine ⟨hc, hs, ?_, ?_, ?_, ?_⟩
  · rcases hc with h | h
    · rw [h]; norm_num
    · exact h.ne.symm
  · rcases hs with h | ⟨d, hd, h⟩
    · rw [h, ← WithTop.coe_zero, Ne, WithTop.coe_eq_coe]; norm_num
    · rw [h, ← WithTop.coe_zero, Ne, WithTop.coe_eq_coe]; exact hd.ne.symm
  · intro hneg
    rcases hc with h | h
    · exact h
    · exact absurd hneg (not_lt.mpr h.le)
  · intro hneg
    rcases hs with h | ⟨d, hd, h⟩
    · exact h
    · rw [h, ← WithTop.coe_zero, WithTop.coe_lt_coe] at hneg
      exact absurd hneg (not_lt.mpr hd.le)

/-- Witness of C13: from `(0,0)` along `(1,0)`, the circle of radius 2 at `(5,0)` is met at a
positive parameter and the circle at `(-5,0)` gives the sentinel. -/
theorem sentinel_or_positive_witness :
    0 < intersect_ray_circle Real.sqrt (Ray.mk 0 0 1 0) (Circle.mk 5 0 2)
      ∧ intersect_ray_circle Real.sqrt (Ray.mk 0 0 1 0) (Circle.mk (-5) 0 2) = -1
      ∧ intersect_ray_screen (Ray.mk (0 : ℝ) 0 1 0) ≠ 0 := by
  have h16 : Real.sqrt 16 = 4 := by
    rw [show (16 : ℝ) = 4 ^ 2 by norm_num]
    exact Real.sqrt_sq (by norm_num)
  have h := sentinel_or_positive (Ray.mk 0 0 1 0) (Circle.mk 5 0 2) (Or.inl one_ne_zero)
  refine ⟨?_, by norm_num [intersect_ray_circle, h16], h.2.2.2.1⟩
  rcases h.1 with h1 | h1
  · norm_num [intersect_ray_circle, h16] at h1
  · exact h1

/-- The result of `intersect_ray_screen` for a horizontal or vertical ray whose moving
coordinate starts strictly between the two boundary lines of its axis. -/
lemma one_axis_positive (start d size : ℝ) (hd : d ≠ 0) (h0 : 0 < start) (h1 : start < size) :
    ∃ hi : ℝ, 0 < hi ∧
      clip_axis start d size ((0 : ℝ), (⊤ : WithTop ℝ)) = (0, (hi : WithTop ℝ)) := by
  rw [clip_axis_ne _ _ _ hd, min_top_left]
  simp only []
  rcases lt_or_gt_of_ne hd with h | h
  · have e1 : 0 < -start / d := div_pos_of_neg_of_neg (by linarith) h
    have e2 : (size - start) / d < 0 := div_neg_of_pos_of_neg (by linarith) h
    have e3 : min (-start / d) ((size - start) / d) = (size - start) / d :=
      min_eq_right (by linarith)
    have e4 : max (-start / d) ((size - start) / d) = -start / d := max_eq_left (by linarith)
    refine ⟨-start / d, e1, ?_⟩
    rw [e3, e4, max_eq_left e2.le]
  · have e1 : -start / d < 0 := div_neg_of_neg_of_pos (by linarith) h
    have e2 : 0 < (size - start) / d := div_pos (by linarith) h
    have e3 : min (-start / d) ((size - start) / d) = -start / d := min_eq_left (by linarith)
    have e4 : max (-start / d) ((size - start) / d) = (size - start) / d :=
      max_eq_right (by linarith)
    refine ⟨(size - start) / d, e2, ?_⟩
    rw [e3, e4, max_eq_left e1.le]

/-- C17: for a ray with `dy = 0` the result of `intersect_ray_screen` is the same for every
`start_y`, so with `dx ≠ 0` and `0 < start_x < WIDTH` it is a positive distance even when
`start_y` is outside `[0, HEIGHT]`; and the same with the two axes exchanged. -/
theorem axis_parallel_skips_clipping :
    (∀ sx sy sy2 dx : ℝ,
        intersect_ray_screen (Ray.mk sx sy dx 0) = intersect_ray_screen (Ray.mk sx sy2 dx 0))
      ∧ (∀ sx sy dx : ℝ, dx ≠ 0 → 0 < sx → sx < (WIDTH : ℝ) →
          ∃ d : ℝ, 0 < d ∧ intersect_ray_screen (Ray.mk sx sy dx 0) = (d : WithTop ℝ))
      ∧ (∀ sx sx2 sy dy : ℝ,
          intersect_ray_screen (Ray.mk sx sy 0 dy) = intersect_ray_screen (Ray.mk sx2 sy 0 dy))
      ∧ (∀ sx sy dy : ℝ, dy ≠ 0 → 0 < sy → sy < (HEIGHT : ℝ) →
          ∃ d : ℝ, 0 < d ∧ intersect_ray_screen (Ray.mk sx sy 0 dy) = (d : WithTop ℝ)) := by
  refine ⟨?_, ?_, ?_, ?_⟩
  · intro sx sy sy2 dx
    simp only [intersect_ray_screen, intersect_ray_screen_in, clip_axis_zero]
  · intro sx sy dx hdx h0 h1
    obtain ⟨hi, hpos, hclip⟩ := one_axis_positive sx dx _ hdx h0 h1
    refine ⟨hi, hpos, ?_⟩
    simp only [intersect_ray_screen, intersect_ray_screen_in, clip_axis_zero, hclip]
    rw [if_pos]
    exact ⟨WithTop.coe_le_coe.mpr hpos.le, WithTop.coe_pos.mpr hpos⟩
  · intro sx sx2 sy dy
    simp only [intersect_ray_screen, intersect_ray_screen_in, clip_axis_zero]
  · intro sx sy dy hdy h0 h1
    obtain ⟨hi, hpos, hclip⟩ := one_axis_positive sy dy _ hdy h0 h1
    refine ⟨hi, hpos, ?_⟩
    simp only [intersect_ray_screen, intersect_ray_screen_in, clip_axis_zero, hclip]
    rw [if_pos]
    exact ⟨WithTop.coe_le_coe.mpr hpos.le, WithTop.coe_pos.mpr hpos⟩

/-- Witness of C17: the horizontal ray from `(100, -50)`, above the canvas, along `(1,0)` gets
the distance 1820 to the right edge. -/
theorem axis_parallel_skips_clipping_witness :
    intersect_ray_screen (Ray.mk (100 : ℝ) (-50) 1 0) = ((1820 : ℝ) : WithTop ℝ)
      ∧ ∃ d : ℝ, 0 < d ∧ intersect_ray_screen (Ray.mk (100 : ℝ) (-50) 1 0) = (d : WithTop ℝ) := by
  have h := axis_parallel_skips_clipping.2.1 100 (-50) 1 one_ne_zero (by norm_num)
    (by norm_num [WIDTH])
  refine ⟨?_, h⟩
  simp only [intersect_ray_screen, intersect_ray_screen_in, clip_axis_zero]
  rw [clip_axis_ne _ _ _ one_ne_zero, min_top_left]
  have e1 : max (0 : ℝ) (min (-100 / 1) ((((WIDTH : ℕ) : ℝ) - 100) / 1)) = 0 := by
    norm_num [WIDTH]
  have e2 : max (-100 / 1 : ℝ) ((((WIDTH : ℕ) : ℝ) - 100) / 1) = 1820 := by
    norm_num [WIDTH]
  rw [e1, e2, if_pos]
  exact ⟨WithTop.coe_le_coe.mpr (by norm_num), WithTop.coe_pos.mpr (by norm_num)⟩

/-- C12: the position that the loop gives to the obstacle at phase `t` is
`(960 + 480 cos t, 540 + 350 sin t)`; at `t = 0` it is exactly `(1440, 540)`, and the position
at `t + 2π` is the position at `t`. -/
theorem orbit_step :
    (∀ t : ℝ, orbit_position Real.cos Real.sin t
        = (960 + 480 * Real.cos t, 540 + 350 * Real.sin t))
      ∧ (∀ s : Sim ℝ, (advance Real.cos Real.sin s).shadow_circle
          = Circle.mk (960 + 480 * Real.cos s.t) (540 + 350 * Real.sin s.t) s.shadow_circle.r)
      ∧ orbit_position Real.cos Real.sin 0 = (1440, 540)
      ∧ (∀ t : ℝ, orbit_position Real.cos Real.sin (t + 2 * Real.pi)
          = orbit_position Real.cos Real.sin t) := by
  have h : ∀ t : ℝ, orbit_position Real.cos Real.sin t
      = (960 + 480 * Real.cos t, 540 + 350 * Real.sin t) := by
    intro t
    simp only [orbit_position, ellipse_center_x, ellipse_center_y, ellipse_a, ellipse_b, WIDTH,
      HEIGHT]
    norm_num
  refine ⟨h, ?_, ?_, ?_⟩
  · intro s
    simp only [advance, h]
  · rw [h, Real.cos_zero, Real.sin_zero]
    norm_num
  · intro t
    rw [h, h, Real.cos_add_two_pi, Real.sin_add_two_pi]

/-- Witness of C7: of the five pixels of the disc of radius 1 at the corner `(0,0)`, the two
off the canvas are dropped and the three on the canvas are filled. -/
theorem FillCircle_writes_on_canvas_witness :
    FillCircle Real.sqrt [] (Circle.mk 0 0 1) 7
        = [(SDL_Rect.mk 0 0 1 1, 7), (SDL_Rect.mk 1 0 1 1, 7), (SDL_Rect.mk 0 1 1 1, 7)]
      ∧ ∀ op ∈ FillCircle Real.sqrt [] (Circle.mk 0 0 1) 7, OnCanvasPixel op := by
  constructor
  · have r1 : intRange (-1) 1 = [-1, 0, 1] := by decide
    have r0 : intRange 0 0 = [0] := by decide
    have w1 : wrap_int (-1) = -1 := by decide
    have w0 : wrap_int 0 = 0 := by decide
    have w2 : wrap_int 1 = 1 := by decide
    simp [FillCircle, x_extent_of, toInt, INT_MIN, INT_MAX, w1, w0, w2, r1, r0, safe_fill_rect,
      SDL_FillRect, WIDTH, HEIGHT]
  · obtain ⟨ops, h, hall⟩ := FillCircle_writes_on_canvas Real.sqrt [] (Circle.mk 0 0 1) 7
    intro op hop
    rw [h, List.nil_append] at hop
    exact (hall op hop).2.1

/-- C6: with the light at `(200,200)`, the obstacle at `(550,300)` with radius 140 and the
1920 by 1080 screen, every ray from `(200,200)` with a unit direction whose forward half-line
comes within 140 of `(550,300)` is clipped by `FillRays` at the obstacle: the obstacle distance
is positive and a point of the circle, the draw length `max_t` is that distance (so it is
positive, and the ray is drawn), and it is strictly less than the screen-boundary distance of
the ray; so it is in particular for every such ray of `generate_rays`. -/
theorem occlusion_end_to_end :
    (∀ ray : Ray ℝ, ray.start_x = 200 → ray.start_y = 200 → ray.dx ^ 2 + ray.dy ^ 2 = 1 →
        PassesWithin ray shadow_circle_init →
        0 < intersect_ray_circle Real.sqrt ray shadow_circle_init
          ∧ OnCircle ray shadow_circle_init (intersect_ray_circle Real.sqrt ray shadow_circle_init)
          ∧ FillRays_max_t Real.sqrt ray shadow_circle_init
              = ((intersect_ray_circle Real.sqrt ray shadow_circle_init : ℝ) : WithTop ℝ)
          ∧ 0 < FillRays_max_t Real.sqrt ray shadow_circle_init
          ∧ FillRays_max_t Real.sqrt ray shadow_circle_init < intersect_ray_screen ray)
      ∧ (∀ ray ∈ generate_rays Real.cos Real.sin light_source_init,
          PassesWithin ray shadow_circle_init →
          0 < intersect_ray_circle Real.sqrt ray shadow_circle_init
            ∧ OnCircle ray shadow_circle_init
                (intersect_ray_circle Real.sqrt ray shadow_circle_init)
            ∧ FillRays_max_t Real.sqrt ray shadow_circle_init
                = ((intersect_ray_circle Real.sqrt ray shadow_circle_init : ℝ) : WithTop ℝ)
            ∧ 0 < FillRays_max_t Real.sqrt ray shadow_circle_init
            ∧ FillRays_max_t Real.sqrt ray shadow_circle_init < intersect_ray_screen ray) := by
  have hunit : ∀ ray : Ray ℝ, ray.dx ^ 2 + ray.dy ^ 2 = 1 → ray.dx ≠ 0 ∨ ray.dy ≠ 0 := by
    intro ray h
    by_contra hcon
    push_neg at hcon
    rw [hcon.1, hcon.2] at h
    norm_num at h
  have key : ∀ ray : Ray ℝ, ray.start_x = 200 → ray.start_y = 200 → ray.dx ^ 2 + ray.dy ^ 2 = 1 →
      PassesWithin ray shadow_circle_init →
      0 < intersect_ray_circle Real.sqrt ray shadow_circle_init
        ∧ OnCircle ray shadow_circle_init (intersect_ray_circle Real.sqrt ray shadow_circle_init)
        ∧ FillRays_max_t Real.sqrt ray shadow_circle_init
            = ((intersect_ray_circle Real.sqrt ray shadow_circle_init : ℝ) : WithTop ℝ)
        ∧ 0 < FillRays_max_t Real.sqrt ray shadow_circle_init
        ∧ FillRays_max_t Real.sqrt ray shadow_circle_init < intersect_ray_screen ray := by
    intro ray hx hy hu hpass
    have hout : OriginOutside ray shadow_circle_init := by
      unfold OriginOutside shadow_circle_init
      rw [hx, hy]
      norm_num
    obtain ⟨hpos, hon⟩ := intersect_ray_circle_hits ray shadow_circle_init (hunit ray hu) hout hpass
    obtain ⟨hmax, hlt⟩ := occluded_ray ray hx hy (hunit ray hu) hpass
    refine ⟨hpos, hon, hmax, ?_, hlt⟩
    rw [hmax]
    exact WithTop.coe_pos.mpr hpos
  constructor
  · exact key
  · intro ray hmem hpass
    obtain ⟨i, _, hray⟩ := generate_rays_n_mem RAYS_NUMBER light_source_init ray hmem
    have hx : ray.start_x = 200 := by rw [hray]; rfl
    have hy : ray.start_y = 200 := by rw [hray]; rfl
    have hu : ray.dx ^ 2 + ray.dy ^ 2 = 1 := by
      rw [hray]
      exact Real.cos_sq_add_sin_sq _
    exact key ray hx hy hu hpass

/-- Witness of C6: ray 0 of the field of `generate_rays`, from the light along `(1,0)`, passes
100 below the centre of the obstacle; it meets the circle first at distance `350 - √9600`, it
is drawn up to there, and that is less than its screen-boundary distance 1720. -/
theorem occlusion_end_to_end_witness :
    Ray.mk (200 : ℝ) 200 1 0 ∈ generate_rays Real.cos Real.sin light_source_init
      ∧ PassesWithin (Ray.mk (200 : ℝ) 200 1 0) shadow_circle_init
      ∧ intersect_ray_screen (Ray.mk (200 : ℝ) 200 1 0) = ((1720 : ℝ) : WithTop ℝ)
      ∧ 0 < intersect_ray_circle Real.sqrt (Ray.mk 200 200 1 0) shadow_circle_init
      ∧ FillRays_max_t Real.sqrt (Ray.mk 200 200 1 0) shadow_circle_init
          = ((intersect_ray_circle Real.sqrt (Ray.mk 200 200 1 0) shadow_circle_init : ℝ) :
              WithTop ℝ)
      ∧ FillRays_max_t Real.sqrt (Ray.mk 200 200 1 0) shadow_circle_init
          < ((1720 : ℝ) : WithTop ℝ) := by
  have hmem : Ray.mk (200 : ℝ) 200 1 0 ∈ generate_rays Real.cos Real.sin light_source_init := by
    unfold generate_rays generate_rays_n
    exact List.mem_map.mpr ⟨0, List.mem_range.mpr (by norm_num [RAYS_NUMBER]),
      by simp [light_source_init]⟩
  have hp : PassesWithin (Ray.mk (200 : ℝ) 200 1 0) shadow_circle_init :=
    ⟨350, by norm_num, by norm_num [shadow_circle_init]⟩
  have hs : intersect_ray_screen (Ray.mk (200 : ℝ) 200 1 0) = ((1720 : ℝ) : WithTop ℝ) := by
    have hx : clip_axis (200 : ℝ) 1 ((WIDTH : ℕ) : ℝ) (0, ⊤) = (0, ((1720 : ℝ) : WithTop ℝ)) := by
      rw [clip_axis_ne _ _ _ one_ne_zero]
      norm_num [WIDTH]
    simp only [intersect_ray_screen, intersect_ray_screen_in, hx, clip_axis_zero]
    rw [if_pos]
    exact ⟨WithTop.coe_le_coe.mpr (by norm_num), WithTop.coe_pos.mpr (by norm_num)⟩
  have h := occlusion_end_to_end.2 (Ray.mk 200 200 1 0) hmem hp
  refine ⟨hmem, hp, hs, h.1, h.2.2.1, ?_⟩
  rw [← hs]
  exact h.2.2.2.2

/-- The sum of a list indexed by `List.range` as a sum over `Finset.range`. -/
lemma list_sum_range (f : ℕ → ℝ) (n : ℕ) :
    ((List.range n).map f).sum = ∑ i ∈ Finset.range n, f i :=
  rfl

/-- C10: for every light position `generate_rays` makes the field of `RAYS_NUMBER` = 500 rays
whose ray `i` has the direction of the angle `(i / 500) * 2 * PI`, the angles being computed
with the constant `PI` = 3.14159265359, and the direction vectors of these 500 rays sum to
`(0,0)` within `1e-9` on each coordinate; a field of four rays has four entries, whose
directions are `(1,0)`, `(0,1)`, `(-1,0)`, `(0,-1)` within `1e-9`. -/
theorem generate_rays_directions_sum (light : Circle ℝ) :
    generate_rays Real.cos Real.sin light = generate_rays_n Real.cos Real.sin RAYS_NUMBER light
      ∧ RAYS_NUMBER = 500
      ∧ (generate_rays Real.cos Real.sin light).length = 500
      ∧ (∀ i : Nat, i < 500 →
          (generate_rays Real.cos Real.sin light)[i]?
            = some (Ray.mk light.x light.y
                (Real.cos (((i : ℝ) / 500) * 2 * PI)) (Real.sin (((i : ℝ) / 500) * 2 * PI))))
      ∧ ((generate_rays Real.cos Real.sin light).map (fun r => r.dx)).sum
          = ∑ i ∈ Finset.range 500, Real.cos (((i : ℝ) / 500) * 2 * PI)
      ∧ ((generate_rays Real.cos Real.sin light).map (fun r => r.dy)).sum
          = ∑ i ∈ Finset.range 500, Real.sin (((i : ℝ) / 500) * 2 * PI)
      ∧ |((generate_rays Real.cos Real.sin light).map (fun r => r.dx)).sum| < 1 / 10 ^ 9
      ∧ |((generate_rays Real.cos Real.sin light).map (fun r => r.dy)).sum| < 1 / 10 ^ 9
      ∧ (generate_rays_n Real.cos Real.sin 4 light).length = 4
      ∧ (∀ i : Nat, i < 4 →
          (generate_rays_n Real.cos Real.sin 4 light)[i]?
            = some (Ray.mk light.x light.y
                (Real.cos (((i : ℝ) / 4) * 2 * PI)) (Real.sin (((i : ℝ) / 4) * 2 * PI))))
      ∧ List.Forall₂
          (fun (ray : Ray ℝ) (e : ℝ × ℝ) =>
            |ray.dx - e.1| < 1 / 10 ^ 9 ∧ |ray.dy - e.2| < 1 / 10 ^ 9)
          (generate_rays_n Real.cos Real.sin 4 light)
          [(1, 0), (0, 1), (-1, 0), (0, -1)] := by
  refine ⟨rfl, rfl, by simp [generate_rays, generate_rays_n, RAYS_NUMBER], ?_, ?_, ?_,
    sum_dx_small light, sum_dy_small light, by simp [generate_rays_n], ?_, ?_⟩
  · intro i hi
    have := generate_rays_n_getElem RAYS_NUMBER light i hi
    simpa [generate_rays, ray_angle, RAYS_NUMBER] using this
  · rw [generate_rays_dx, list_sum_range]
    apply Finset.sum_congr rfl
    intro i _
    congr 1
    ring
  · rw [generate_rays_dy, list_sum_range]
    apply Finset.sum_congr rfl
    intro i _
    congr 1
    ring
  · intro i hi
    have := generate_rays_n_getElem 4 light i hi
    simpa [ray_angle] using this
  · obtain ⟨hP1, hP2⟩ := PI_bounds
    have hd0 : 0 < (PI : ℝ) - Real.pi := by linarith
    have hd1 : (PI : ℝ) - Real.pi < 3 / 10 ^ 13 := by linarith
    have ha1 : |((PI : ℝ) - Real.pi) / 2| ≤ 1 / 10 ^ 12 := by
      rw [abs_of_pos (by linarith)]
      norm_num at hd1 ⊢
      linarith
    have ha2 : |(PI : ℝ) - Real.pi| ≤ 1 / 10 ^ 12 := by
      rw [abs_of_pos hd0]
      norm_num at hd1 ⊢
      linarith
    have ha3 : |3 * ((PI : ℝ) - Real.pi) / 2| ≤ 1 / 10 ^ 12 := by
      rw [abs_of_pos (by linarith)]
      norm_num at hd1 ⊢
      linarith
    have e0 : ray_angle 4 0 = (0 : ℝ) := by
      unfold ray_angle; norm_num
    have e1 : ray_angle 4 1 = ((PI : ℝ) - Real.pi) / 2 + Real.pi / 2 := by
      unfold ray_angle; push_cast; ring
    have e2 : ray_angle 4 2 = ((PI : ℝ) - Real.pi) + Real.pi := by
      unfold ray_angle; push_cast; ring
    have e3 : ray_angle 4 3 = (3 * ((PI : ℝ) - Real.pi) / 2 + Real.pi / 2) + Real.pi := by
      unfold ray_angle; push_cast; ring
    obtain ⟨s1, c1⟩ := small_angle _ ha1
    obtain ⟨s2, c2⟩ := small_angle _ ha2
    obtain ⟨s3, c3⟩ := small_angle _ ha3
    rw [generate_rays_4, e0, e1, e2, e3]
    simp only [Real.cos_add_pi, Real.sin_add_pi, Real.cos_add_pi_div_two, Real.sin_add_pi_div_two,
      Real.cos_zero, Real.sin_zero, neg_neg]
    refine List.Forall₂.cons ⟨?_, ?_⟩ (List.Forall₂.cons ⟨?_, ?_⟩
      (List.Forall₂.cons ⟨?_, ?_⟩ (List.Forall₂.cons ⟨?_, ?_⟩ List.Forall₂.nil)))
    · norm_num
    · norm_num
    · simpa using s1
    · exact c1
    · have : -Real.cos ((PI : ℝ) - Real.pi) - -1 = -(Real.cos ((PI : ℝ) - Real.pi) - 1) := by ring
      simp only []
      rw [this, abs_neg]
      exact c2
    · simpa using s2
    · simpa using s3
    · have : -Real.cos (3 * ((PI : ℝ) - Real.pi) / 2) - -1
          = -(Real.cos (3 * ((PI : ℝ) - Real.pi) / 2) - 1) := by ring
      simp only []
      rw [this, abs_neg]
      exact c3

/-- Witness of C10: ray 0 of the field of the initial light starts at `(200,200)` with the
direction of the angle 0, the field has 500 rays, and ray 2 of a field of four rays is within
`1e-9` of `(-1,0)`. -/
theorem generate_rays_directions_sum_witness :
    (generate_rays Real.cos Real.sin (Circle.mk 200 200 40))[0]?
        = some (Ray.mk 200 200 (Real.cos ((((0 : ℕ) : ℝ) / 500) * 2 * PI))
            (Real.sin ((((0 : ℕ) : ℝ) / 500) * 2 * PI)))
      ∧ (generate_rays Real.cos Real.sin (Circle.mk 200 200 40)).length = 500
      ∧ |((generate_rays Real.cos Real.sin (Circle.mk 200 200 40)).map (fun r => r.dx)).sum|
          < 1 / 10 ^ 9
      ∧ (generate_rays_n Real.cos Real.sin 4 (Circle.mk 200 200 40))[2]?
        = some (Ray.mk 200 200 (Real.cos ((((2 : ℕ) : ℝ) / 4) * 2 * PI))
            (Real.sin ((((2 : ℕ) : ℝ) / 4) * 2 * PI))) := by
  have h := generate_rays_directions_sum (Circle.mk 200 200 40)
  exact ⟨h.2.2.2.1 0 (by norm_num), h.2.2.1, h.2.2.2.2.2.2.1,
    h.2.2.2.2.2.2.2.2.2.1 2 (by norm_num)⟩

/-- The cast `(int)` of a nonnegative real below `2^31` is its floor. -/
lemma toInt_of_nonneg (v : ℝ) (h : 0 ≤ v) (h2 : v < 2147483648) : toInt v = ⌊v⌋ := by
  have h0 : 0 ≤ ⌊v⌋ := Int.floor_nonneg.mpr h
  have h1 : ⌊v⌋ < 2147483648 := Int.floor_lt.mpr (by push_cast; exact h2)
  unfold toInt INT_MIN INT_MAX
  simp only [if_pos h]
  rw [if_pos]
  omega

/-- The cast `(int)` of a real between the integer `n ≥ 0` and `n + 1`, for `n` an `int`. -/
lemma toInt_eq (v : ℝ) (n : Int) (h0 : 0 ≤ v) (h1 : (n : ℝ) ≤ v) (h2 : v < (n : ℝ) + 1)
    (hn : n ≤ INT_MAX) : toInt v = n := by
  have hv : v < 2147483648 := by
    have : (n : ℝ) ≤ ((INT_MAX : Int) : ℝ) := by exact_mod_cast hn
    unfold INT_MAX at this
    push_cast at this
    linarith
  rw [toInt_of_nonneg v h0 hv, Int.floor_eq_iff]
  exact ⟨h1, h2⟩

/-- A positive lower bound of the cast `(int)` of a real is a lower bound of the real. -/
lemma le_of_le_toInt (v : ℝ) (k : Int) (hk : 0 < k) (h : k ≤ toInt v) : (k : ℝ) ≤ v := by
  unfold toInt INT_MIN INT_MAX at h
  by_cases hv : 0 ≤ v
  · simp only [if_pos hv] at h
    split_ifs at h with hr
    · have hfl := Int.floor_le v
      have : (k : ℝ) ≤ ((⌊v⌋ : Int) : ℝ) := by exact_mod_cast h
      linarith
    · omega
  · simp only [if_neg hv] at h
    have hc : ⌈v⌉ ≤ 0 := Int.ceil_le.mpr (by push_cast; linarith)
    split_ifs at h with hr
    · omega
    · omega

/-- The values of a loop variable are those between the two bounds. -/
lemma mem_intRange (lo hi x : Int) : x ∈ intRange lo hi ↔ lo ≤ x ∧ x ≤ hi := by
  unfold intRange
  rw [List.mem_map]
  constructor
  · rintro ⟨k, hk, rfl⟩
    have := List.mem_range.mp hk
    omega
  · rintro ⟨h1, h2⟩
    refine ⟨(x - lo).toNat, List.mem_range.mpr (by omega), by omega⟩

/-- The values of a loop variable that starts at zero. -/
lemma intRange_zero (n : Int) :
    intRange 0 (n - 1) = (List.range n.toNat).map (fun (k : Nat) => (k : Int)) := by
  unfold intRange
  have e : (n - 1 + 1 - 0).toNat = n.toNat := by
    congr 1
    omega
  rw [e]
  apply List.map_congr_left
  intro k _
  omega

/-- The number of steps for a finite draw length is the cast of its half. -/
lemma steps_of_coe (m : ℝ) : steps_of (m : WithTop ℝ) = toInt (m / 2) := rfl

/-- The number of steps for the draw length `INFINITY` is `INT_MIN`. -/
lemma steps_of_top : steps_of (⊤ : WithTop ℝ) = INT_MIN := rfl

/-- Within the step loop, the parameter `t = step * step_size` is at most `max_t - 2`. -/
lemma step_param_le (m : ℝ) (step : Int) (h0 : 0 ≤ step)
    (h1 : step ≤ steps_of (m : WithTop ℝ) - 1) :
    (step : ℝ) * step_size ≤ m - 2 := by
  rw [steps_of_coe] at h1
  have hs := le_of_le_toInt (m / 2) (step + 1) (by omega) (by omega)
  push_cast at hs
  unfold step_size
  linarith

/-- The step loop runs for every step from `0` to `steps - 1`: the `break` test never cuts it,
whatever the draw length. -/
lemma sample_params_eq (M : WithTop ℝ) :
    sample_params M = (List.range (steps_of M).toNat).map (fun (k : Nat) => (k : ℝ) * 2) := by
  have hall : ∀ t ∈ (intRange 0 (steps_of M - 1)).map
      (fun (step : Int) => (step : ℝ) * step_size), decide (¬ (t : WithTop ℝ) > M) = true := by
    intro t ht
    obtain ⟨step, hstep, rfl⟩ := List.mem_map.mp ht
    obtain ⟨h0, h1⟩ := (mem_intRange _ _ _).mp hstep
    rw [decide_eq_true_iff]
    induction M using WithTop.recTopCoe with
    | top => exact not_lt.mpr le_top
    | coe m =>
      have := step_param_le m step h0 h1
      rw [gt_iff_lt, WithTop.coe_lt_coe]
      linarith
  unfold sample_params
  rw [List.takeWhile_eq_self_iff.mpr hall, intRange_zero, List.map_map]
  apply List.map_congr_left
  intro k _
  simp [step_size]

/-- The parameters of the samples of a ray with a finite draw length. -/
lemma sample_params_coe (m : ℝ) :
    sample_params (m : WithTop ℝ)
      = (List.range (toInt (m / 2)).toNat).map (fun (k : Nat) => (k : ℝ) * 2) := by
  rw [sample_params_eq, steps_of_coe]

/-- No sample is drawn for a ray whose draw length is `INFINITY`. -/
lemma sample_params_top : sample_params (⊤ : WithTop ℝ) = [] := by
  rw [sample_params_eq, steps_of_top]
  rfl

/-- Every parameter of a sample is nonnegative and at least one step below the draw length. -/
lemma sample_params_step (m : ℝ) (t : ℝ) (ht : t ∈ sample_params (m : WithTop ℝ)) :
    0 ≤ t ∧ t + 2 ≤ m := by
  rw [sample_params_eq] at ht
  obtain ⟨k, hk, rfl⟩ := List.mem_map.mp ht
  have hk2 := List.mem_range.mp hk
  have hb := step_param_le m (k : Int) (by omega) (by omega)
  unfold step_size at hb
  push_cast at hb
  exact ⟨by positivity, by linarith⟩

/-- Every parameter of a sample is nonnegative and strictly below the draw length. -/
lemma sample_params_range (M : WithTop ℝ) (t : ℝ) (ht : t ∈ sample_params M) :
    0 ≤ t ∧ (t : WithTop ℝ) < M := by
  induction M using WithTop.recTopCoe with
  | top =>
    rw [sample_params_top] at ht
    exact absurd ht (List.not_mem_nil t)
  | coe m =>
    obtain ⟨h0, h2⟩ := sample_params_step m t ht
    exact ⟨h0, WithTop.coe_lt_coe.mpr (by linarith)⟩

/-- A surface extended by fills with a property is extended by fills with a weaker one. -/
lemma extendsBy_mono (P Q : SDL_Rect × Nat → Prop) (h : ∀ op, P op → Q op) (s1 s2 : Surface)
    (h12 : ExtendsBy P s1 s2) : ExtendsBy Q s1 s2 := by
  obtain ⟨ops, e, p⟩ := h12
  exact ⟨ops, e, fun op hop => h op (p op hop)⟩

/-- The side of the blur square, `1.5`, cast to `int`, is 1. -/
lemma toInt_blur_size : toInt (blur_size : ℝ) = 1 := by
  unfold blur_size RAY_THICKNESS
  exact toInt_eq _ 1 (by norm_num) (by norm_num) (by norm_num) (by decide)

/-- The two fills of a sample: a 1 by 1 blur square, then a 1 by 1 main square. -/
lemma draw_sample_eq (s : Surface) (ray : Ray ℝ) (t : ℝ) (color blur_color : Nat) :
    draw_sample s ray t color blur_color
      = safe_fill_rect
          (safe_fill_rect s (blur_pixel ray t).1 (blur_pixel ray t).2 1 1 blur_color)
          (sample_pixel ray t).1 (sample_pixel ray t).2 1 1 color := by
  simp only [draw_sample, toInt_blur_size, blur_pixel, sample_pixel, RAY_THICKNESS]
  rfl

/-- A sample adds at most two fills, each of one pixel of the canvas. -/
lemma draw_sample_extends (s : Surface) (ray : Ray ℝ) (t : ℝ) (color blur_color : Nat) :
    ExtendsBy (fun op => OnCanvasPixel op ∧ (op.2 = color ∨ op.2 = blur_color)) s
      (draw_sample s ray t color blur_color) := by
  rw [draw_sample_eq]
  exact extendsBy_trans _ s
    (safe_fill_rect s (blur_pixel ray t).1 (blur_pixel ray t).2 1 1 blur_color) _
    (extendsBy_mono _ _ (fun op h => ⟨h.1, Or.inr h.2⟩) _ _
      (safe_fill_rect_pixel s _ _ blur_color))
    (extendsBy_mono _ _ (fun op h => ⟨h.1, Or.inl h.2⟩) _ _
      (safe_fill_rect_pixel _ _ _ color))

/-- C18: whatever the ray field and the obstacle, `FillRays` leaves the earlier fills as they
are and every rectangle it hands to the surface is exactly 1 by 1 (the blur side
`1.5 * RAY_THICKNESS` is cast to the `int` 1) with its pixel on the canvas
`[0,WIDTH) × [0,HEIGHT)`, of the main or of the blur colour. -/
theorem FillRays_writes_on_canvas (surface : Surface) (rays : List (Ray ℝ))
    (color blur_color : Nat) (obstacle : Circle ℝ) :
    toInt (blur_size : ℝ) = 1
      ∧ ∃ ops : List (SDL_Rect × Nat),
          FillRays Real.sqrt surface rays color blur_color obstacle = surface ++ ops
            ∧ ∀ op ∈ ops, (op.2 = color ∨ op.2 = blur_color) ∧ OnCanvasPixel op
                ∧ ∀ px py : Int, op.1.covers px py →
                    (px = op.1.x ∧ py = op.1.y)
                      ∧ 0 ≤ px ∧ px < (WIDTH : Int) ∧ 0 ≤ py ∧ py < (HEIGHT : Int) := by
  refine ⟨toInt_blur_size, ?_⟩
  have h : ExtendsBy (fun op => OnCanvasPixel op ∧ (op.2 = color ∨ op.2 = blur_color)) surface
      (FillRays Real.sqrt surface rays color blur_color obstacle) := by
    unfold FillRays
    apply extendsBy_foldl
    intro s ray
    unfold FillRays_ray
    simp only []
    split_ifs with hskip
    · exact extendsBy_refl _ s
    · apply extendsBy_foldl
      intro s2 t
      exact draw_sample_extends s2 ray t color blur_color
  obtain ⟨ops, heq, hall⟩ := h
  refine ⟨ops, heq, ?_⟩
  intro op hop
  obtain ⟨hpix, hcol⟩ := hall op hop
  refine ⟨hcol, hpix, ?_⟩
  intro px py hcov
  obtain ⟨hw, hh, hx0, hx1, hy0, hy1⟩ := hpix
  obtain ⟨c1, c2, c3, c4⟩ := hcov
  rw [hw] at c2
  rw [hh] at c4
  have ex : px = op.1.x := by omega
  have ey : py = op.1.y := by omega
  refine ⟨⟨ex, ey⟩, ?_, ?_, ?_, ?_⟩ <;> omega

/-- The colour of a pixel, one fill unfolded. -/
lemma pixel_color_cons (a : SDL_Rect × Nat) (s : Surface) (px py : Int) :
    pixel_color (a :: s) px py
      = match pixel_color s px py with
        | some c => some c
        | none =>
          if a.1.x ≤ px ∧ px < a.1.x + a.1.w ∧ a.1.y ≤ py ∧ py < a.1.y + a.1.h then some a.2
          else none := by
  rw [pixel_color]

/-- The colour of a pixel after one more fill. -/
lemma pixel_color_append (s : Surface) (op : SDL_Rect × Nat) (px py : Int) :
    pixel_color (s ++ [op]) px py
      = if op.1.x ≤ px ∧ px < op.1.x + op.1.w ∧ op.1.y ≤ py ∧ py < op.1.y + op.1.h
        then some op.2 else pixel_color s px py := by
  induction s with
  | nil => simp [pixel_color]
  | cons a s ih =>
    rw [List.cons_append, pixel_color_cons, ih, pixel_color_cons]
    by_cases h : op.1.x ≤ px ∧ px < op.1.x + op.1.w ∧ op.1.y ≤ py ∧ py < op.1.y + op.1.h
    · rw [if_pos h, if_pos h]
    · rw [if_neg h, if_neg h]

/-- A 1 by 1 fill on the canvas gives its colour to its pixel. -/
lemma pixel_color_safe_fill_rect_hit (s : Surface) (x y : Int) (c : Nat) (hc : OnCanvas x y) :
    pixel_color (safe_fill_rect s x y 1 1 c) x y = some c := by
  unfold OnCanvas at hc
  unfold safe_fill_rect SDL_FillRect
  rw [if_pos (by omega), pixel_color_append, if_pos]
  simp only []
  omega

/-- A 1 by 1 fill leaves the colour of every other pixel as it is. -/
lemma pixel_color_safe_fill_rect_miss (s : Surface) (x y px py : Int) (c : Nat)
    (h : (x, y) ≠ (px, py)) :
    pixel_color (safe_fill_rect s x y 1 1 c) px py = pixel_color s px py := by
  unfold safe_fill_rect SDL_FillRect
  split_ifs with hc
  · rw [pixel_color_append, if_neg]
    simp only []
    intro hcov
    apply h
    rw [Prod.ext_iff]
    simp only []
    omega
  · rfl

/-- A 1 by 1 fill gives a pixel its colour or leaves the colour of the pixel as it is. -/
lemma pixel_color_safe_fill_rect_cases (s : Surface) (x y px py : Int) (c : Nat) :
    pixel_color (safe_fill_rect s x y 1 1 c) px py = some c
      ∨ pixel_color (safe_fill_rect s x y 1 1 c) px py = pixel_color s px py := by
  unfold safe_fill_rect SDL_FillRect
  split_ifs with hc
  · rw [pixel_color_append]
    split_ifs
    · exact Or.inl rfl
    · exact Or.inr rfl
  · exact Or.inr rfl

/-- Right after a sample is drawn, its pixel holds the main colour when it is on the canvas:
the blur square of the same sample is drawn first. -/
lemma pixel_color_draw_sample_self (s : Surface) (ray : Ray ℝ) (t : ℝ) (color blur_color : Nat)
    (hc : OnCanvas (sample_pixel ray t).1 (sample_pixel ray t).2) :
    pixel_color (draw_sample s ray t color blur_color)
      (sample_pixel ray t).1 (sample_pixel ray t).2 = some color := by
  rw [draw_sample_eq]
  exact pixel_color_safe_fill_rect_hit _ _ _ color hc

/-- A sample whose blur square is not on a pixel of the main colour leaves it of the main
colour. -/
lemma pixel_color_draw_sample_other (s : Surface) (ray : Ray ℝ) (u : ℝ)
    (color blur_color : Nat) (px py : Int) (hb : blur_pixel ray u ≠ (px, py))
    (hs : pixel_color s px py = some color) :
    pixel_color (draw_sample s ray u color blur_color) px py = some color := by
  rw [draw_sample_eq]
  rcases pixel_color_safe_fill_rect_cases
    (safe_fill_rect s (blur_pixel ray u).1 (blur_pixel ray u).2 1 1 blur_color)
    (sample_pixel ray u).1 (sample_pixel ray u).2 px py color with h | h
  · exact h
  · have hb2 : ((blur_pixel ray u).1, (blur_pixel ray u).2) ≠ (px, py) := hb
    rw [h, pixel_color_safe_fill_rect_miss s (blur_pixel ray u).1 (blur_pixel ray u).2 px py
      blur_color hb2, hs]

/-- Samples whose blur squares are not on a pixel of the main colour leave it of the main
colour. -/
lemma pixel_color_foldl_other (ray : Ray ℝ) (color blur_color : Nat) (px py : Int)
    (post : List ℝ) (hb : ∀ u ∈ post, blur_pixel ray u ≠ (px, py)) (s : Surface)
    (hs : pixel_color s px py = some color) :
    pixel_color (post.foldl (fun s t => draw_sample s ray t color blur_color) s) px py
      = some color := by
  induction post generalizing s with
  | nil => exact hs
  | cons u post ih =>
    rw [List.foldl_cons]
    apply ih (fun v hv => hb v (List.mem_cons_of_mem u hv))
    exact pixel_color_draw_sample_other s ray u color blur_color px py
      (hb u (List.mem_cons_self u post)) hs

/-- C15, amended: after `FillRays` has finished drawing one ray, an on-canvas pixel that was
painted with the main colour at one of that ray's samples still holds the main colour,
provided no blur square of a later sample of the ray lies on it; the blur square of its own
sample never overwrites it, being drawn before the main square. -/
theorem main_colour_kept (surface : Surface) (ray : Ray ℝ) (obstacle : Circle ℝ)
    (color blur_color : Nat) (pre post : List ℝ) (t : ℝ)
    (hts : sample_params (FillRays_max_t Real.sqrt ray obstacle) = pre ++ t :: post)
    (hcanvas : OnCanvas (sample_pixel ray t).1 (sample_pixel ray t).2)
    (hlater : ∀ u ∈ post, blur_pixel ray u ≠ sample_pixel ray t) :
    pixel_color (FillRays_ray Real.sqrt surface ray color blur_color obstacle)
        (sample_pixel ray t).1 (sample_pixel ray t).2 = some color
      ∧ ∀ s : Surface, pixel_color (draw_sample s ray t color blur_color)
          (sample_pixel ray t).1 (sample_pixel ray t).2 = some color := by
  refine ⟨?_, fun s => pixel_color_draw_sample_self s ray t color blur_color hcanvas⟩
  have hmem : t ∈ sample_params (FillRays_max_t Real.sqrt ray obstacle) := by
    rw [hts]
    exact List.mem_append_right pre (List.mem_cons_self t post)
  obtain ⟨ht0, htm⟩ := sample_params_range _ t hmem
  have hnot : ¬ (FillRays_max_t Real.sqrt ray obstacle ≤ 0) := by
    intro hle
    have h0 : ((0 : ℝ) : WithTop ℝ) ≤ (t : WithTop ℝ) := WithTop.coe_le_coe.mpr ht0
    rw [WithTop.coe_zero] at h0
    exact absurd (lt_of_le_of_lt h0 (lt_of_lt_of_le htm hle)) (lt_irrefl _)
  simp only [FillRays_ray]
  rw [if_neg hnot, hts, List.foldl_append, List.foldl_cons]
  exact pixel_color_foldl_other ray color blur_color _ _ post hlater _
    (pixel_color_draw_sample_self _ ray t color blur_color hcanvas)

/-- Evaluation of the draw length of the ray from `(200,200)` along `(3/5,4/5)` with the
obstacle of radius 5 at `(206,208)`: the obstacle is hit at parameter 5. -/
lemma diag_ray_max_t :
    FillRays_max_t Real.sqrt (Ray.mk 200 200 (3 / 5) (4 / 5)) (Circle.mk 206 208 5)
      = ((5 : ℝ) : WithTop ℝ) := by
  have hsq : Real.sqrt 100 = 10 := by
    rw [show (100 : ℝ) = 10 ^ 2 by norm_num]
    exact Real.sqrt_sq (by norm_num)
  have hc : intersect_ray_circle Real.sqrt (Ray.mk 200 200 (3 / 5) (4 / 5))
      (Circle.mk 206 208 5) = 5 := by
    norm_num [intersect_ray_circle, hsq]
  obtain ⟨d, hd, -, hgreat, -⟩ := intersect_ray_screen_in_spec ((WIDTH : ℕ) : ℝ)
    ((HEIGHT : ℕ) : ℝ) (Ray.mk 200 200 (3 / 5) (4 / 5)) (Or.inl (by norm_num))
    (by norm_num [InScreen, WIDTH, HEIGHT])
    ⟨6, by norm_num, by norm_num [InScreen, WIDTH, HEIGHT]⟩
  have h6 : (6 : ℝ) ≤ d := hgreat.2 ⟨by norm_num, by norm_num [InScreen, WIDTH, HEIGHT]⟩
  have hs : intersect_ray_screen (Ray.mk (200 : ℝ) 200 (3 / 5) (4 / 5)) = (d : WithTop ℝ) := hd
  simp only [FillRays_max_t, hc, hs, max_t_of]
  rw [if_pos]
  exact ⟨by norm_num, Or.inr (WithTop.coe_lt_coe.mpr (by linarith))⟩

/-- The parameters of the samples for the draw length 5. -/
lemma sample_params_five : sample_params ((5 : ℝ) : WithTop ℝ) = [0, 2] := by
  have hst : toInt ((5 : ℝ) / 2) = 2 :=
    toInt_eq _ 2 (by norm_num) (by norm_num) (by norm_num) (by decide)
  rw [sample_params_coe, hst]
  simp [List.range_succ]

/-- The pixels of the two samples of the ray from `(200,200)` along `(3/5,4/5)`, and the
corners of their blur squares. -/
lemma diag_ray_pixels :
    sample_pixel (Ray.mk (200 : ℝ) 200 (3 / 5) (4 / 5)) 0 = (200, 200)
      ∧ blur_pixel (Ray.mk (200 : ℝ) 200 (3 / 5) (4 / 5)) 0 = (199, 199)
      ∧ sample_pixel (Ray.mk (200 : ℝ) 200 (3 / 5) (4 / 5)) 2 = (201, 201)
      ∧ blur_pixel (Ray.mk (200 : ℝ) 200 (3 / 5) (4 / 5)) 2 = (200, 200) := by
  have p0 : sample_pixel (Ray.mk (200 : ℝ) 200 (3 / 5) (4 / 5)) 0 = (200, 200) := by
    unfold sample_pixel
    rw [toInt_eq _ 200 (by norm_num) (by norm_num) (by norm_num) (by decide),
      toInt_eq _ 200 (by norm_num) (by norm_num) (by norm_num) (by decide)]
  have p2 : sample_pixel (Ray.mk (200 : ℝ) 200 (3 / 5) (4 / 5)) 2 = (201, 201) := by
    unfold sample_pixel
    rw [toInt_eq _ 201 (by norm_num) (by norm_num) (by norm_num) (by decide),
      toInt_eq _ 201 (by norm_num) (by norm_num) (by norm_num) (by decide)]
  refine ⟨p0, ?_, p2, ?_⟩
  · unfold blur_pixel
    rw [p0]
    unfold blur_size RAY_THICKNESS
    rw [toInt_eq _ 199 (by norm_num) (by norm_num) (by norm_num) (by decide)]
  · unfold blur_pixel
    rw [p2]
    unfold blur_size RAY_THICKNESS
    rw [toInt_eq _ 200 (by norm_num) (by norm_num) (by norm_num) (by decide)]

/-- The fills that `FillRays` makes for the ray from `(200,200)` along `(3/5,4/5)` with the
obstacle of radius 5 at `(206,208)`. -/
lemma diag_ray_fills :
    FillRays_ray Real.sqrt [] (Ray.mk 200 200 (3 / 5) (4 / 5)) COLOR_RAY COLOR_RAY_BLUR
        (Circle.mk 206 208 5)
      = [(SDL_Rect.mk 199 199 1 1, COLOR_RAY_BLUR), (SDL_Rect.mk 200 200 1 1, COLOR_RAY),
         (SDL_Rect.mk 200 200 1 1, COLOR_RAY_BLUR), (SDL_Rect.mk 201 201 1 1, COLOR_RAY)] := by
  obtain ⟨p0, b0, p2, b2⟩ := diag_ray_pixels
  have hnot : ¬ (((5 : ℝ) : WithTop ℝ) ≤ 0) := by
    rw [← WithTop.coe_zero, WithTop.coe_le_coe]
    norm_num
  simp only [FillRays_ray, diag_ray_max_t]
  rw [if_neg hnot, sample_params_five]
  simp only [List.foldl_cons, List.foldl_nil, draw_sample_eq, p0, b0, p2, b2]
  simp [safe_fill_rect, SDL_FillRect, WIDTH, HEIGHT]

/-- C15 as stated fails: for the ray from `(200,200)` along `(3/5,4/5)`, stopped by the obstacle
of radius 5 at `(206,208)`, the first sample paints the on-canvas pixel `(200,200)` with the
main colour, the blur square of the second sample lies on that pixel, and when the ray is
finished the pixel holds the blur colour. -/
theorem main_colour_never_occluded_counterexample :
    sample_params
        (FillRays_max_t Real.sqrt (Ray.mk 200 200 (3 / 5) (4 / 5)) (Circle.mk 206 208 5))
        = [0, 2]
      ∧ sample_pixel (Ray.mk (200 : ℝ) 200 (3 / 5) (4 / 5)) 0 = (200, 200)
      ∧ OnCanvas 200 200
      ∧ blur_pixel (Ray.mk (200 : ℝ) 200 (3 / 5) (4 / 5)) 2 = (200, 200)
      ∧ pixel_color
          (FillRays_ray Real.sqrt [] (Ray.mk 200 200 (3 / 5) (4 / 5)) COLOR_RAY COLOR_RAY_BLUR
            (Circle.mk 206 208 5)) 200 200 = some COLOR_RAY_BLUR
      ∧ COLOR_RAY_BLUR ≠ COLOR_RAY := by
  obtain ⟨p0, -, -, b2⟩ := diag_ray_pixels
  refine ⟨by rw [diag_ray_max_t, sample_params_five], p0, by unfold OnCanvas; decide, b2, ?_,
    by decide⟩
  rw [diag_ray_fills]
  decide

/-- Witness of C15, amended: the pixel `(201,201)` of the last sample of the same ray holds the
main colour when the ray is finished. -/
theorem main_colour_kept_witness :
    pixel_color
        (FillRays_ray Real.sqrt [] (Ray.mk 200 200 (3 / 5) (4 / 5)) COLOR_RAY COLOR_RAY_BLUR
          (Circle.mk 206 208 5)) 201 201 = some COLOR_RAY := by
  obtain ⟨-, -, p2, -⟩ := diag_ray_pixels
  have h := (main_colour_kept [] (Ray.mk 200 200 (3 / 5) (4 / 5)) (Circle.mk 206 208 5)
    COLOR_RAY COLOR_RAY_BLUR [0] [] 2 (by rw [diag_ray_max_t, sample_params_five]; rfl)
    (by rw [p2]; unfold OnCanvas; decide) (fun u hu => absurd hu (List.not_mem_nil u))).1
  rw [p2] at h
  exact h

/-- Witness of C18: the four fills of the field of the single ray from `(200,200)` along
`(3/5,4/5)` are 1 by 1 and on the canvas. -/
theorem FillRays_writes_on_canvas_witness :
    FillRays Real.sqrt [] [Ray.mk 200 200 (3 / 5) (4 / 5)] COLOR_RAY COLOR_RAY_BLUR
        (Circle.mk 206 208 5)
        = [(SDL_Rect.mk 199 199 1 1, COLOR_RAY_BLUR), (SDL_Rect.mk 200 200 1 1, COLOR_RAY),
           (SDL_Rect.mk 200 200 1 1, COLOR_RAY_BLUR), (SDL_Rect.mk 201 201 1 1, COLOR_RAY)]
      ∧ ∀ op ∈ FillRays Real.sqrt [] [Ray.mk 200 200 (3 / 5) (4 / 5)] COLOR_RAY COLOR_RAY_BLUR
          (Circle.mk 206 208 5), OnCanvasPixel op := by
  constructor
  · simp only [FillRays, List.foldl_cons, List.foldl_nil]
    exact diag_ray_fills
  · obtain ⟨ops, h, hall⟩ := (FillRays_writes_on_canvas [] [Ray.mk 200 200 (3 / 5) (4 / 5)]
      COLOR_RAY COLOR_RAY_BLUR (Circle.mk 206 208 5)).2
    intro op hop
    rw [h, List.nil_append] at hop
    exact (hall op hop).2.1

/-- A loop that appends to the surface appends the fills of all its passes. -/
lemma foldl_append_flatMap {α : Type} (g : α → List (SDL_Rect × Nat)) (l : List α)
    (s : Surface) :
    l.foldl (fun s2 a => s2 ++ g a) s = s ++ l.flatMap g := by
  induction l generalizing s with
  | nil => simp
  | cons a l ih =>
    rw [List.foldl_cons, ih, List.flatMap_cons, List.append_assoc]

/-- The function `safe_fill_rect` appends one fill or none. -/
lemma safe_fill_rect_append (s : Surface) (x y w h : Int) (c : Nat) :
    safe_fill_rect s x y w h c
      = s ++ (if 0 ≤ x ∧ x < (WIDTH : Int) ∧ 0 ≤ y ∧ y < (HEIGHT : Int)
              then [(SDL_Rect.mk x y w h, c)] else []) := by
  unfold safe_fill_rect SDL_FillRect
  by_cases h1 : 0 ≤ x ∧ x < (WIDTH : Int) ∧ 0 ≤ y ∧ y < (HEIGHT : Int)
  · rw [if_pos h1, if_pos h1]
  · rw [if_neg h1, if_neg h1, List.append_nil]

/-- The fills of `FillCircle`, scanline by scanline. -/
lemma FillCircle_eq {F : Type} [LinearOrderedField F] [FloorRing F] (sqrt : F → F)
    (surface : Surface) (circle : Circle F) (color : Nat) :
    FillCircle sqrt surface circle color
      = surface ++ (intRange (wrap_int (-(toInt circle.r))) (toInt circle.r)).flatMap (fun y =>
          (intRange
              (wrap_int (-(x_extent_of sqrt
                (wrap_int (toInt circle.r * toInt circle.r - y * y)))))
              (x_extent_of sqrt (wrap_int (toInt circle.r * toInt circle.r - y * y)))).flatMap
            (fun x =>
              if 0 ≤ wrap_int (toInt circle.x + x) ∧ wrap_int (toInt circle.x + x) < (WIDTH : Int)
                  ∧ 0 ≤ wrap_int (toInt circle.y + y)
                  ∧ wrap_int (toInt circle.y + y) < (HEIGHT : Int)
              then [(SDL_Rect.mk (wrap_int (toInt circle.x + x))
                (wrap_int (toInt circle.y + y)) 1 1, color)]
              else [])) := by
  unfold FillCircle
  simp only [safe_fill_rect_append, foldl_append_flatMap]

/-- The arithmetic of `int` is exact when the exact result is an `int`. -/
lemma wrap_int_eq (n : Int) (h1 : INT_MIN ≤ n) (h2 : n ≤ INT_MAX) : wrap_int n = n := by
  unfold wrap_int
  unfold INT_MIN at h1
  unfold INT_MAX at h2
  omega

/-- The cast `(int)` gives an `int`. -/
lemma toInt_range {F : Type} [LinearOrderedField F] [FloorRing F] (v : F) :
    INT_MIN ≤ toInt v ∧ toInt v ≤ INT_MAX := by
  unfold toInt
  simp only []
  split_ifs <;> first | assumption | exact ⟨le_refl _, by decide⟩

/-- A coordinate `c + x` with `c` an `int` and `|x| ≤ 46340`, computed in `int`, is a column
(or row) below `W ≤ 2^31 - 46340` exactly when the exact sum is, and then it is the exact
sum. -/
lemma wrap_int_coord (c x W : Int) (hc1 : INT_MIN ≤ c) (hc2 : c ≤ INT_MAX)
    (hx1 : -46340 ≤ x) (hx2 : x ≤ 46340) (hW : W ≤ 2000000000) :
    ((0 ≤ wrap_int (c + x) ∧ wrap_int (c + x) < W) ↔ (0 ≤ c + x ∧ c + x < W))
      ∧ (0 ≤ c + x → c + x < W → wrap_int (c + x) = c + x) := by
  unfold wrap_int
  unfold INT_MIN at hc1
  unfold INT_MAX at hc2
  constructor
  · constructor <;> intro h <;> omega
  · intro h1 h2
    omega

/-- The half-width of a scanline for a radius `0 ≤ r ≤ 46340`: with `|y| ≤ r` the `int`
arithmetic is exact, the half-width is `floor (sqrt (r² - y²))`, between 0 and 46340, and an
offset `x` is within it of the centre exactly when `x² + y² ≤ r²`. -/
lemma extent_iff (r y x : Int) (hr : r ≤ 46340) (hy1 : -r ≤ y) (hy2 : y ≤ r) :
    (0 ≤ x_extent_of Real.sqrt (wrap_int (r * r - y * y))
        ∧ x_extent_of Real.sqrt (wrap_int (r * r - y * y)) ≤ 46340)
      ∧ ((-(x_extent_of Real.sqrt (wrap_int (r * r - y * y))) ≤ x
          ∧ x ≤ x_extent_of Real.sqrt (wrap_int (r * r - y * y)))
        ↔ x ^ 2 + y ^ 2 ≤ r ^ 2) := by
  have hr0 : 0 ≤ r := by omega
  have hn : 0 ≤ r * r - y * y := by nlinarith
  have hn2 : r * r - y * y ≤ 46340 * 46340 := by nlinarith [mul_self_nonneg y]
  have hw : wrap_int (r * r - y * y) = r * r - y * y :=
    wrap_int_eq _ (by unfold INT_MIN; omega) (by unfold INT_MAX; omega)
  have hnR : (0 : ℝ) ≤ ((r * r - y * y : Int) : ℝ) := by exact_mod_cast hn
  have hsq : Real.sqrt (((r * r - y * y : Int)) : ℝ) ≤ 46340 := by
    rw [Real.sqrt_le_iff]
    have : ((r * r - y * y : Int) : ℝ) ≤ ((46340 * 46340 : Int) : ℝ) := by exact_mod_cast hn2
    refine ⟨by norm_num, ?_⟩
    push_cast at this ⊢
    linarith
  have hx : x_extent_of Real.sqrt (wrap_int (r * r - y * y))
      = ⌊Real.sqrt (((r * r - y * y : Int)) : ℝ)⌋ := by
    unfold x_extent_of
    rw [hw, if_neg (not_lt.mpr hn)]
    exact toInt_of_nonneg _ (Real.sqrt_nonneg _) (by linarith)
  rw [hx]
  refine ⟨⟨Int.floor_nonneg.mpr (Real.sqrt_nonneg _), ?_⟩, ?_⟩
  · have h1 := Int.floor_le (Real.sqrt (((r * r - y * y : Int)) : ℝ))
    have h3 := le_trans h1 hsq
    have h4 : ⌊Real.sqrt (((r * r - y * y : Int)) : ℝ)⌋ < 46340 + 1 :=
      Int.floor_lt.mpr (by
        have e : ((46340 + 1 : Int) : ℝ) = 46341 := by norm_num
        rw [e]
        linarith)
    omega
  · rw [← abs_le, Int.le_floor, Int.cast_abs, Real.le_sqrt (abs_nonneg _) hnR, sq_abs]
    constructor
    · intro h
      have h2 : ((x ^ 2 : Int) : ℝ) ≤ ((r * r - y * y : Int) : ℝ) := by
        push_cast
        push_cast at h
        exact h
      have h3 : x ^ 2 ≤ r * r - y * y := by exact_mod_cast h2
      nlinarith
    · intro h
      have h3 : x ^ 2 ≤ r * r - y * y := by nlinarith
      have h2 : ((x ^ 2 : Int) : ℝ) ≤ ((r * r - y * y : Int) : ℝ) := by exact_mod_cast h3
      push_cast at h2 ⊢
      exact h2

/-- The fills of `FillCircle` for a radius `0 ≤ r ≤ 46340`: one 1 by 1 fill for each pixel of
the discrete disc that is on the canvas. -/
lemma mem_FillCircle_fills (circle : Circle ℝ) (color : Nat) (hr : 0 ≤ toInt circle.r)
    (hr2 : toInt circle.r ≤ 46340) (op : SDL_Rect × Nat) :
    op ∈ (intRange (wrap_int (-(toInt circle.r))) (toInt circle.r)).flatMap (fun y =>
          (intRange
              (wrap_int (-(x_extent_of Real.sqrt
                (wrap_int (toInt circle.r * toInt circle.r - y * y)))))
              (x_extent_of Real.sqrt
                (wrap_int (toInt circle.r * toInt circle.r - y * y)))).flatMap
            (fun x =>
              if 0 ≤ wrap_int (toInt circle.x + x) ∧ wrap_int (toInt circle.x + x) < (WIDTH : Int)
                  ∧ 0 ≤ wrap_int (toInt circle.y + y)
                  ∧ wrap_int (toInt circle.y + y) < (HEIGHT : Int)
              then [(SDL_Rect.mk (wrap_int (toInt circle.x + x))
                (wrap_int (toInt circle.y + y)) 1 1, color)]
              else []))
      ↔ ∃ x y : Int, x ^ 2 + y ^ 2 ≤ (toInt circle.r) ^ 2
          ∧ OnCanvas (toInt circle.x + x) (toInt circle.y + y)
          ∧ op = (SDL_Rect.mk (toInt circle.x + x) (toInt circle.y + y) 1 1, color) := by
  obtain ⟨cx1, cx2⟩ := toInt_range circle.x
  obtain ⟨cy1, cy2⟩ := toInt_range circle.y
  have hwr : wrap_int (-(toInt circle.r)) = -(toInt circle.r) :=
    wrap_int_eq _ (by unfold INT_MIN; omega) (by unfold INT_MAX; omega)
  rw [hwr, List.mem_flatMap]
  constructor
  · rintro ⟨y, hy, hop⟩
    rw [List.mem_flatMap] at hop
    obtain ⟨x, hx, hop⟩ := hop
    obtain ⟨hy1, hy2⟩ := (mem_intRange _ _ _).mp hy
    obtain ⟨⟨he0, he1⟩, hiff⟩ := extent_iff _ y x hr2 hy1 hy2
    have hwe : wrap_int (-(x_extent_of Real.sqrt
        (wrap_int (toInt circle.r * toInt circle.r - y * y))))
        = -(x_extent_of Real.sqrt (wrap_int (toInt circle.r * toInt circle.r - y * y))) :=
      wrap_int_eq _ (by unfold INT_MIN; omega) (by unfold INT_MAX; omega)
    rw [hwe] at hx
    obtain ⟨hx1, hx2⟩ := (mem_intRange _ _ _).mp hx
    have hdisc := hiff.mp ⟨hx1, hx2⟩
    obtain ⟨wx1, wx2⟩ := wrap_int_coord (toInt circle.x) x (WIDTH : Int) cx1 cx2 (by omega)
      (by omega) (by unfold WIDTH; norm_num)
    obtain ⟨wy1, wy2⟩ := wrap_int_coord (toInt circle.y) y (HEIGHT : Int) cy1 cy2 (by omega)
      (by omega) (by unfold HEIGHT; norm_num)
    split_ifs at hop with hc
    · have hcx := wx1.mp ⟨hc.1, hc.2.1⟩
      have hcy := wy1.mp ⟨hc.2.2.1, hc.2.2.2⟩
      rw [wx2 hcx.1 hcx.2, wy2 hcy.1 hcy.2] at hop
      exact ⟨x, y, hdisc, ⟨hcx.1, hcx.2, hcy.1, hcy.2⟩, List.mem_singleton.mp hop⟩
    · exact absurd hop (List.not_mem_nil op)
  · rintro ⟨x, y, hdisc, hc, rfl⟩
    have hy1 : -(toInt circle.r) ≤ y := by nlinarith [sq_nonneg x]
    have hy2 : y ≤ toInt circle.r := by nlinarith [sq_nonneg x]
    obtain ⟨⟨he0, he1⟩, hiff⟩ := extent_iff _ y x hr2 hy1 hy2
    have hwe : wrap_int (-(x_extent_of Real.sqrt
        (wrap_int (toInt circle.r * toInt circle.r - y * y))))
        = -(x_extent_of Real.sqrt (wrap_int (toInt circle.r * toInt circle.r - y * y))) :=
      wrap_int_eq _ (by unfold INT_MIN; omega) (by unfold INT_MAX; omega)
    obtain ⟨hx1, hx2⟩ := hiff.mpr hdisc
    obtain ⟨wx1, wx2⟩ := wrap_int_coord (toInt circle.x) x (WIDTH : Int) cx1 cx2 (by omega)
      (by omega) (by unfold WIDTH; norm_num)
    obtain ⟨wy1, wy2⟩ := wrap_int_coord (toInt circle.y) y (HEIGHT : Int) cy1 cy2 (by omega)
      (by omega) (by unfold HEIGHT; norm_num)
    refine ⟨y, (mem_intRange _ _ _).mpr ⟨hy1, hy2⟩, ?_⟩
    rw [List.mem_flatMap, hwe]
    refine ⟨x, (mem_intRange _ _ _).mpr ⟨hx1, hx2⟩, ?_⟩
    obtain ⟨c1, c2, c3, c4⟩ := hc
    rw [wx2 c1 c2, wy2 c3 c4]
    have hc2 : 0 ≤ toInt circle.x + x ∧ toInt circle.x + x < (WIDTH : Int)
        ∧ 0 ≤ toInt circle.y + y ∧ toInt circle.y + y < (HEIGHT : Int) := ⟨c1, c2, c3, c4⟩
    rw [if_pos hc2]
    exact List.mem_singleton.mpr rfl

/-- C16 as stated fails: for the circle of radius 46341 at `(960,540)` the half-width of the
scanline `y = 0` is computed from `r * r - y * y = 46341 * 46341`, which is more than
`INT_MAX` and wraps to the negative `int` -2147479015; the scanline is lost, and the centre
`(960,540)` of the disc, a pixel of the canvas, is not written. -/
theorem FillCircle_rasterises_disc_counterexample :
    0 ≤ toInt (Circle.mk (960 : ℝ) 540 46341).r
      ∧ OnCanvas 960 540
      ∧ (∃ x y : Int, x ^ 2 + y ^ 2 ≤ (toInt (Circle.mk (960 : ℝ) 540 46341).r) ^ 2
          ∧ 960 = toInt (Circle.mk (960 : ℝ) 540 46341).x + x
          ∧ 540 = toInt (Circle.mk (960 : ℝ) 540 46341).y + y)
      ∧ wrap_int (46341 * 46341 - 0 * 0) = -2147479015
      ∧ ¬ (∃ op ∈ FillCircle Real.sqrt [] (Circle.mk 960 540 46341) 7, op.1.covers 960 540) := by
  have hr : toInt (46341 : ℝ) = 46341 :=
    toInt_eq _ 46341 (by norm_num) (by norm_num) (by norm_num) (by decide)
  have hx : toInt (960 : ℝ) = 960 :=
    toInt_eq _ 960 (by norm_num) (by norm_num) (by norm_num) (by decide)
  have hy : toInt (540 : ℝ) = 540 :=
    toInt_eq _ 540 (by norm_num) (by norm_num) (by norm_num) (by decide)
  have hw : wrap_int (46341 * 46341 - 0 * 0) = -2147479015 := by decide
  refine ⟨by simp only [hr]; norm_num, by unfold OnCanvas; decide,
    ⟨0, 0, by simp only [hr]; norm_num, by simp only [hx]; norm_num,
      by simp only [hy]; norm_num⟩, hw, ?_⟩
  rintro ⟨op, hop, hcov⟩
  rw [FillCircle_eq, List.nil_append, List.mem_flatMap] at hop
  obtain ⟨y, hyr, hop⟩ := hop
  rw [List.mem_flatMap] at hop
  obtain ⟨x, hxr, hop⟩ := hop
  simp only [hr, hx, hy] at hyr hxr hop
  obtain ⟨hy1, hy2⟩ := (mem_intRange _ _ _).mp hyr
  have hwr : wrap_int (-46341) = -46341 := by decide
  rw [hwr] at hy1
  split_ifs at hop with hc
  · rw [List.mem_singleton] at hop
    subst hop
    obtain ⟨c1, c2, c3, c4⟩ := hcov
    simp only [] at c1 c2 c3 c4
    have hy0 : y = 0 := by
      unfold wrap_int at c3 c4
      omega
    subst hy0
    have hext : x_extent_of Real.sqrt (wrap_int (46341 * 46341 - 0 * 0)) = INT_MIN := by
      rw [hw]
      unfold x_extent_of
      rw [if_pos (by norm_num)]
    rw [hext] at hxr
    obtain ⟨hx1, hx2⟩ := (mem_intRange _ _ _).mp hxr
    have hwm : wrap_int (-INT_MIN) = -2147483648 := by decide
    rw [hwm] at hx1
    unfold INT_MIN at hx2
    unfold wrap_int at c1 c2
    omega
  · exact absurd hop (List.not_mem_nil op)

/-- C16, amended: with `cx`, `cy`, `r` the integer conversions of the fields of the circle and
`0 ≤ r ≤ 46340` (so that `r * r` is an `int`), `FillCircle` adds exactly one 1 by 1 fill of
the given colour for each pixel `(cx + x, cy + y)` with `x² + y² ≤ r²` that is on the canvas,
so the pixels it writes are the discrete disc intersected with the canvas; the half-width of
the scanline `y` is `floor (sqrt (r² - y²))`, and `|x| ≤` half-width exactly when
`x² + y² ≤ r²`. -/
theorem FillCircle_rasterises_disc (surface : Surface) (circle : Circle ℝ) (color : Nat)
    (hr : 0 ≤ toInt circle.r) (hr2 : toInt circle.r ≤ 46340) :
    (∃ ops : List (SDL_Rect × Nat),
        FillCircle Real.sqrt surface circle color = surface ++ ops
          ∧ (∀ op, op ∈ ops ↔
              ∃ x y : Int, x ^ 2 + y ^ 2 ≤ (toInt circle.r) ^ 2
                ∧ OnCanvas (toInt circle.x + x) (toInt circle.y + y)
                ∧ op = (SDL_Rect.mk (toInt circle.x + x) (toInt circle.y + y) 1 1, color))
          ∧ (∀ px py : Int, (∃ op ∈ ops, op.1.covers px py) ↔
              (OnCanvas px py ∧ ∃ x y : Int, x ^ 2 + y ^ 2 ≤ (toInt circle.r) ^ 2
                ∧ px = toInt circle.x + x ∧ py = toInt circle.y + y)))
      ∧ (∀ x y : Int, -(toInt circle.r) ≤ y → y ≤ toInt circle.r →
          x_extent_of Real.sqrt (wrap_int (toInt circle.r * toInt circle.r - y * y))
              = ⌊Real.sqrt (((toInt circle.r) ^ 2 - y ^ 2 : Int) : ℝ)⌋
            ∧ ((|x| ≤ x_extent_of Real.sqrt
                  (wrap_int (toInt circle.r * toInt circle.r - y * y)))
              ↔ x ^ 2 + y ^ 2 ≤ (toInt circle.r) ^ 2)) := by
  constructor
  · refine ⟨_, FillCircle_eq Real.sqrt surface circle color,
      mem_FillCircle_fills circle color hr hr2, ?_⟩
    intro px py
    constructor
    · rintro ⟨op, hop, hcov⟩
      obtain ⟨x, y, hdisc, hc, rfl⟩ := (mem_FillCircle_fills circle color hr hr2 op).mp hop
      obtain ⟨c1, c2, c3, c4⟩ := hcov
      simp only [] at c1 c2 c3 c4
      have ex : px = toInt circle.x + x := by omega
      have ey : py = toInt circle.y + y := by omega
      rw [ex, ey]
      exact ⟨hc, x, y, hdisc, rfl, rfl⟩
    · rintro ⟨hc, x, y, hdisc, rfl, rfl⟩
      refine ⟨_, (mem_FillCircle_fills circle color hr hr2 _).mpr ⟨x, y, hdisc, hc, rfl⟩, ?_⟩
      unfold SDL_Rect.covers
      simp only []
      omega
  · intro x y hy1 hy2
    obtain ⟨-, hiff⟩ := extent_iff _ y x hr2 hy1 hy2
    refine ⟨?_, ?_⟩
    · have hn : 0 ≤ toInt circle.r * toInt circle.r - y * y := by nlinarith
      have hn2 : toInt circle.r * toInt circle.r - y * y ≤ 46340 * 46340 := by
        nlinarith [mul_self_nonneg y]
      have hw : wrap_int (toInt circle.r * toInt circle.r - y * y)
          = toInt circle.r * toInt circle.r - y * y :=
        wrap_int_eq _ (by unfold INT_MIN; omega) (by unfold INT_MAX; omega)
      have hsq : Real.sqrt (((toInt circle.r * toInt circle.r - y * y : Int)) : ℝ) ≤ 46340 := by
        rw [Real.sqrt_le_iff]
        have : ((toInt circle.r * toInt circle.r - y * y : Int) : ℝ)
            ≤ ((46340 * 46340 : Int) : ℝ) := by exact_mod_cast hn2
        refine ⟨by norm_num, ?_⟩
        push_cast at this ⊢
        linarith
      unfold x_extent_of
      rw [hw, if_neg (not_lt.mpr hn), toInt_of_nonneg _ (Real.sqrt_nonneg _) (by linarith)]
      rw [show toInt circle.r * toInt circle.r - y * y = toInt circle.r ^ 2 - y ^ 2 by ring]
    · rw [abs_le]
      exact hiff

/-- Witness of C16, amended: the disc of radius 1 at the corner `(0,0)` has five pixels, of
which `(0,0)`, `(1,0)` and `(0,1)` are on the canvas; `(1,0)` is written and `(1,1)` is not. -/
theorem FillCircle_rasterises_disc_witness :
    (∃ op ∈ FillCircle Real.sqrt [] (Circle.mk 0 0 1) 7, op.1.covers 1 0)
      ∧ ¬ (∃ op ∈ FillCircle Real.sqrt [] (Circle.mk 0 0 1) 7, op.1.covers 1 1) := by
  have h0 : toInt (0 : ℝ) = 0 :=
    toInt_eq 0 0 (by norm_num) (by norm_num) (by norm_num) (by decide)
  have h1 : toInt (1 : ℝ) = 1 :=
    toInt_eq 1 1 (by norm_num) (by norm_num) (by norm_num) (by decide)
  obtain ⟨ops, heq, -, hpix⟩ :=
    (FillCircle_rasterises_disc [] (Circle.mk 0 0 1) 7 (by simp only []; rw [h1]; norm_num)
      (by simp only []; rw [h1]; norm_num)).1
  rw [heq, List.nil_append]
  simp only [h0, h1] at hpix
  constructor
  · exact (hpix 1 0).mpr ⟨by unfold OnCanvas; decide, 1, 0, by norm_num, by norm_num,
      by norm_num⟩
  · intro h
    obtain ⟨-, x, y, hd, hx, hy⟩ := (hpix 1 1).mp h
    have ex : x = 1 := by omega
    have ey : y = 1 := by omega
    rw [ex, ey] at hd
    norm_num at hd

/-- The cast `(int)` keeps a real between two nonnegative integer bounds between them. -/
lemma toInt_bounds (v : ℝ) (lo hi : Int) (hlo0 : 0 ≤ lo) (h1 : (lo : ℝ) ≤ v)
    (h2 : v ≤ (hi : ℝ)) (hhi : hi ≤ INT_MAX) : lo ≤ toInt v ∧ toInt v ≤ hi := by
  have hv0 : (0 : ℝ) ≤ v := le_trans (by exact_mod_cast hlo0) h1
  have hv1 : v < 2147483648 := by
    have : (hi : ℝ) ≤ ((INT_MAX : Int) : ℝ) := by exact_mod_cast hhi
    unfold INT_MAX at this
    push_cast at this
    linarith
  rw [toInt_of_nonneg v hv0 hv1]
  constructor
  · exact Int.le_floor.mpr h1
  · have := Int.floor_le v
    have h3 : ((⌊v⌋ : Int) : ℝ) ≤ (hi : ℝ) := le_trans this h2
    exact_mod_cast h3

/-- The centre of the obstacle on its orbit stays in `[480,1440] × [190,890]`. -/
lemma orbit_position_bounds (t : ℝ) :
    480 ≤ (orbit_position Real.cos Real.sin t).1 ∧ (orbit_position Real.cos Real.sin t).1 ≤ 1440
      ∧ 190 ≤ (orbit_position Real.cos Real.sin t).2
      ∧ (orbit_position Real.cos Real.sin t).2 ≤ 890 := by
  have hc1 := Real.neg_one_le_cos t
  have hc2 := Real.cos_le_one t
  have hs1 := Real.neg_one_le_sin t
  have hs2 := Real.sin_le_one t
  simp only [orbit_position, ellipse_center_x, ellipse_center_y, ellipse_a, ellipse_b, WIDTH,
    HEIGHT]
  norm_num
  refine ⟨by linarith, by linarith, by linarith, by linarith⟩

/-- A disc of radius 140 whose centre is in `[410,1440] × [190,890]` lies in the rectangle
`[0,1920] × [0,1080]`. -/
lemma disc_in_screen (cx cy u v : ℝ) (hx1 : 410 ≤ cx) (hx2 : cx ≤ 1440) (hy1 : 190 ≤ cy)
    (hy2 : cy ≤ 890) (h : (u - cx) ^ 2 + (v - cy) ^ 2 ≤ 140 ^ 2) :
    0 ≤ u ∧ u ≤ 1920 ∧ 0 ≤ v ∧ v ≤ 1080 := by
  have hu := abs_le_of_sq_le_sq' (by nlinarith [sq_nonneg (v - cy)] :
    (u - cx) ^ 2 ≤ (140 : ℝ) ^ 2) (by norm_num)
  have hv := abs_le_of_sq_le_sq' (by nlinarith [sq_nonneg (u - cx)] :
    (v - cy) ^ 2 ≤ (140 : ℝ) ^ 2) (by norm_num)
  refine ⟨by linarith [hu.1], by linarith [hu.2], by linarith [hv.1], by linarith [hv.2]⟩

/-- No pixel of the discrete disc of radius 140 is dropped by `FillCircle` when the centre is
in `[410,1440] × [190,890]`. -/
lemma FillCircle_nothing_dropped (surface : Surface) (cx cy : ℝ) (color : Nat)
    (hx1 : 410 ≤ cx) (hx2 : cx ≤ 1440) (hy1 : 190 ≤ cy) (hy2 : cy ≤ 890)
    (x y : Int) (hdisc : x ^ 2 + y ^ 2 ≤ 140 ^ 2) :
    OnCanvas (toInt cx + x) (toInt cy + y)
      ∧ (SDL_Rect.mk (toInt cx + x) (toInt cy + y) 1 1, color)
          ∈ FillCircle Real.sqrt surface (Circle.mk cx cy 140) color := by
  have hr : toInt (140 : ℝ) = 140 :=
    toInt_eq 140 140 (by norm_num) (by norm_num) (by norm_num) (by decide)
  obtain ⟨bx1, bx2⟩ := toInt_bounds cx 410 1440 (by norm_num) (by exact_mod_cast hx1)
    (by exact_mod_cast hx2) (by decide)
  obtain ⟨by1, by2⟩ := toInt_bounds cy 190 890 (by norm_num) (by exact_mod_cast hy1)
    (by exact_mod_cast hy2) (by decide)
  have hxa : -140 ≤ x ∧ x ≤ 140 := by
    constructor <;> nlinarith [sq_nonneg y]
  have hya : -140 ≤ y ∧ y ≤ 140 := by
    constructor <;> nlinarith [sq_nonneg x]
  have hc : OnCanvas (toInt cx + x) (toInt cy + y) := by
    unfold OnCanvas WIDTH HEIGHT
    omega
  refine ⟨hc, ?_⟩
  rw [FillCircle_eq]
  apply List.mem_append_right
  apply (mem_FillCircle_fills (Circle.mk cx cy 140) color (by simp only []; rw [hr]; norm_num)
    (by simp only []; rw [hr]; norm_num) _).mpr
  simp only [hr]
  exact ⟨x, y, hdisc, hc, rfl⟩

/-- In every state that the loop of `main` reaches, the obstacle has radius 140 and its
centre is its initial position `(550,300)` or a point of the orbit. -/
lemma main_loop_shadow_circle (surface : Surface) (frames : List (List SDL_Event)) :
    (main_loop Real.sqrt Real.cos Real.sin (main_init Real.cos Real.sin surface)
        frames).shadow_circle.r = 140
      ∧ 410 ≤ (main_loop Real.sqrt Real.cos Real.sin (main_init Real.cos Real.sin surface)
          frames).shadow_circle.x
      ∧ (main_loop Real.sqrt Real.cos Real.sin (main_init Real.cos Real.sin surface)
          frames).shadow_circle.x ≤ 1440
      ∧ 190 ≤ (main_loop Real.sqrt Real.cos Real.sin (main_init Real.cos Real.sin surface)
          frames).shadow_circle.y
      ∧ (main_loop Real.sqrt Real.cos Real.sin (main_init Real.cos Real.sin surface)
          frames).shadow_circle.y ≤ 890 := by
  have key : ∀ (fs : List (List SDL_Event)) (s : Sim ℝ),
      (s.shadow_circle.r = 140 ∧ 410 ≤ s.shadow_circle.x ∧ s.shadow_circle.x ≤ 1440
        ∧ 190 ≤ s.shadow_circle.y ∧ s.shadow_circle.y ≤ 890) →
      ((main_loop Real.sqrt Real.cos Real.sin s fs).shadow_circle.r = 140
        ∧ 410 ≤ (main_loop Real.sqrt Real.cos Real.sin s fs).shadow_circle.x
        ∧ (main_loop Real.sqrt Real.cos Real.sin s fs).shadow_circle.x ≤ 1440
        ∧ 190 ≤ (main_loop Real.sqrt Real.cos Real.sin s fs).shadow_circle.y
        ∧ (main_loop Real.sqrt Real.cos Real.sin s fs).shadow_circle.y ≤ 890) := by
    intro fs
    induction fs with
    | nil => intro s hs; exact hs
    | cons events rest ih =>
      intro s hs
      rw [main_loop]
      split_ifs with hrun
      · apply ih
        have hr : (frame Real.sqrt Real.cos Real.sin s events).shadow_circle.r
            = s.shadow_circle.r := by
          have hp : ∀ (evs : List SDL_Event) (s1 : Sim ℝ),
              (poll_events s1 evs).shadow_circle = s1.shadow_circle := by
            intro evs
            induction evs with
            | nil => intro s1; rfl
            | cons e evs ih2 =>
              intro s1
              rw [poll_events, List.foldl_cons]
              have := ih2 (handle_event s1 e)
              rw [poll_events] at this
              rw [this]
              cases e with
              | quit => rfl
              | mousemotion st x y =>
                simp only [handle_event]
                split_ifs <;> rfl
              | other => rfl
          simp only [frame, advance, render, at_FillRays, update_rays]
          split_ifs
          · exact congrArg Circle.r (hp events s)
          · exact congrArg Circle.r (hp events s)
        obtain ⟨b1, b2, b3, b4⟩ := orbit_position_bounds
          (render Real.sqrt (at_FillRays Real.cos Real.sin s events)).t
        refine ⟨by rw [hr]; exact hs.1, ?_, b2, b3, b4⟩
        have : (480 : ℝ) ≤ (frame Real.sqrt Real.cos Real.sin s events).shadow_circle.x := b1
        linarith
      · exact hs
  apply key
  simp only [main_init]
  norm_num

/-- C19: for every real phase `t`, the disc of radius 140 centred at the orbit position
`(960 + 480 cos t, 540 + 350 sin t)` lies inside `[0,1920] × [0,1080]`, and so does the
obstacle at its initial position `(550,300)`; in every state that the loop of `main` reaches
the obstacle is such a circle, and `FillCircle` fills every pixel of its discrete disc, none
being dropped. -/
theorem obstacle_stays_on_canvas :
    (∀ t u v : ℝ,
        (u - (orbit_position Real.cos Real.sin t).1) ^ 2
            + (v - (orbit_position Real.cos Real.sin t).2) ^ 2 ≤ 140 ^ 2 →
        0 ≤ u ∧ u ≤ 1920 ∧ 0 ≤ v ∧ v ≤ 1080)
      ∧ (∀ u v : ℝ, (u - 550) ^ 2 + (v - 300) ^ 2 ≤ 140 ^ 2 →
          0 ≤ u ∧ u ≤ 1920 ∧ 0 ≤ v ∧ v ≤ 1080)
      ∧ (∀ (surface : Surface) (frames : List (List SDL_Event)) (s : Surface) (color : Nat)
          (x y : Int), x ^ 2 + y ^ 2 ≤ 140 ^ 2 →
          OnCanvas
              (toInt (main_loop Real.sqrt Real.cos Real.sin (main_init Real.cos Real.sin surface)
                frames).shadow_circle.x + x)
              (toInt (main_loop Real.sqrt Real.cos Real.sin (main_init Real.cos Real.sin surface)
                frames).shadow_circle.y + y)
            ∧ (SDL_Rect.mk
                (toInt (main_loop Real.sqrt Real.cos Real.sin
                  (main_init Real.cos Real.sin surface) frames).shadow_circle.x + x)
                (toInt (main_loop Real.sqrt Real.cos Real.sin
                  (main_init Real.cos Real.sin surface) frames).shadow_circle.y + y) 1 1, color)
              ∈ FillCircle Real.sqrt s
                  (main_loop Real.sqrt Real.cos Real.sin (main_init Real.cos Real.sin surface)
                    frames).shadow_circle color) := by
  refine ⟨?_, ?_, ?_⟩
  · intro t u v h
    obtain ⟨b1, b2, b3, b4⟩ := orbit_position_bounds t
    exact disc_in_screen _ _ u v (by linarith) b2 b3 b4 h
  · intro u v h
    exact disc_in_screen 550 300 u v (by norm_num) (by norm_num) (by norm_num) (by norm_num) h
  · intro surface frames s color x y hdisc
    obtain ⟨hr, b1, b2, b3, b4⟩ := main_loop_shadow_circle surface frames
    have h := FillCircle_nothing_dropped s _ _ color b1 b2 b3 b4 x y hdisc
    have hc : (main_loop Real.sqrt Real.cos Real.sin (main_init Real.cos Real.sin surface)
        frames).shadow_circle
        = Circle.mk
            (main_loop Real.sqrt Real.cos Real.sin (main_init Real.cos Real.sin surface)
              frames).shadow_circle.x
            (main_loop Real.sqrt Real.cos Real.sin (main_init Real.cos Real.sin surface)
              frames).shadow_circle.y 140 := by
      rw [← hr]
    rw [hc]
    exact h

/-- Witness of C19: the rightmost pixel of the obstacle at its initial position, `(690,300)`,
is on the canvas and is filled. -/
theorem obstacle_stays_on_canvas_witness :
    OnCanvas
        (toInt (main_loop Real.sqrt Real.cos Real.sin (main_init Real.cos Real.sin [])
          []).shadow_circle.x + 140)
        (toInt (main_loop Real.sqrt Real.cos Real.sin (main_init Real.cos Real.sin [])
          []).shadow_circle.y + 0)
      ∧ ((0 : ℝ) ≤ 690 ∧ (690 : ℝ) ≤ 1920 ∧ (0 : ℝ) ≤ 300 ∧ (300 : ℝ) ≤ 1080) :=
  ⟨(obstacle_stays_on_canvas.2.2 [] [] [] 0 140 0 (by norm_num)).1,
    obstacle_stays_on_canvas.2.1 690 300 (by norm_num)⟩

/-- One event: the field and the count of the calls of `generate_rays` are kept, the flag is
set by a pointer motion with a pressed button and otherwise kept, and the light is kept unless
the flag is set. -/
lemma handle_event_spec (s : Sim ℝ) (e : SDL_Event) :
    (handle_event s e).rays = s.rays
      ∧ (handle_event s e).generate_rays_calls = s.generate_rays_calls
      ∧ ((handle_event s e).rays_need_update = true ↔
          (s.rays_need_update = true ∨ IsPressedMotion e))
      ∧ ((handle_event s e).rays_need_update = false →
          (handle_event s e).light_source = s.light_source) := by
  cases e with
  | quit =>
    refine ⟨rfl, rfl, ?_, fun _ => rfl⟩
    simp only [handle_event]
    constructor
    · intro h; exact Or.inl h
    · rintro (h | ⟨st, x, y, h, -⟩)
      · exact h
      · cases h
  | mousemotion st x y =>
    by_cases hst : st ≠ 0
    · simp only [handle_event, if_pos hst]
      refine ⟨trivial, trivial, ?_, ?_⟩
      · constructor
        · intro _; exact Or.inr ⟨st, x, y, rfl, hst⟩
        · intro _; trivial
      · intro h; cases h
    · simp only [handle_event, if_neg hst]
      refine ⟨trivial, trivial, ?_, fun _ => trivial⟩
      constructor
      · intro h; exact Or.inl h
      · rintro (h | ⟨st2, x2, y2, h, hne⟩)
        · exact h
        · cases h
          exact absurd hne hst
  | other =>
    refine ⟨rfl, rfl, ?_, fun _ => rfl⟩
    simp only [handle_event]
    constructor
    · intro h; exact Or.inl h
    · rintro (h | ⟨st, x, y, h, -⟩)
      · exact h
      · cases h

/-- The events of a frame: the field and the count of the calls of `generate_rays` are kept,
the flag is set exactly when it was set or a pointer motion with a pressed button is among the
events, and the light is kept unless the flag is set. -/
lemma poll_events_spec (events : List SDL_Event) (s : Sim ℝ) :
    (poll_events s events).rays = s.rays
      ∧ (poll_events s events).generate_rays_calls = s.generate_rays_calls
      ∧ ((poll_events s events).rays_need_update = true ↔
          (s.rays_need_update = true ∨ ∃ e ∈ events, IsPressedMotion e))
      ∧ ((poll_events s events).rays_need_update = false →
          (poll_events s events).light_source = s.light_source) := by
  induction events generalizing s with
  | nil =>
    refine ⟨rfl, rfl, ?_, fun _ => rfl⟩
    simp [poll_events]
  | cons e rest ih =>
    have hstep : poll_events s (e :: rest) = poll_events (handle_event s e) rest := rfl
    obtain ⟨h1, h0, h2, h3⟩ := handle_event_spec s e
    obtain ⟨i1, i0, i2, i3⟩ := ih (handle_event s e)
    rw [hstep]
    refine ⟨by rw [i1, h1], by rw [i0, h0], ?_, ?_⟩
    · rw [i2, h2]
      constructor
      · rintro ((h | h) | ⟨e2, he2, hp⟩)
        · exact Or.inl h
        · exact Or.inr ⟨e, List.mem_cons_self e rest, h⟩
        · exact Or.inr ⟨e2, List.mem_cons_of_mem e he2, hp⟩
      · rintro (h | ⟨e2, he2, hp⟩)
        · exact Or.inl (Or.inl h)
        · rcases List.mem_cons.mp he2 with heq | hmem
          · rw [heq] at hp
            exact Or.inl (Or.inr hp)
          · exact Or.inr ⟨e2, hmem, hp⟩
    · intro hf
      have hf2 : (handle_event s e).rays_need_update = false := by
        by_contra hcon
        have ht : (handle_event s e).rays_need_update = true := by
          cases hv : (handle_event s e).rays_need_update
          · exact absurd hv hcon
          · rfl
        have := i2.mpr (Or.inl ht)
        rw [hf] at this
        cases this
      rw [i3 hf, h3 hf2]

/-- The field that `generate_rays` makes starts at the centre of the light. -/
lemma generate_rays_origin (light : Circle ℝ) (ray : Ray ℝ)
    (h : ray ∈ generate_rays Real.cos Real.sin light) :
    ray.start_x = light.x ∧ ray.start_y = light.y := by
  obtain ⟨i, _, rfl⟩ := generate_rays_n_mem RAYS_NUMBER light ray h
  exact ⟨rfl, rfl⟩

/-- The field that `generate_rays` makes has `RAYS_NUMBER` rays. -/
lemma generate_rays_length (light : Circle ℝ) :
    (generate_rays Real.cos Real.sin light).length = RAYS_NUMBER := by
  simp [generate_rays, generate_rays_n]

/-- The update of the field when the flag is set: one more call of `generate_rays`, which
makes the field of the light. -/
lemma update_rays_set (s : Sim ℝ) (h : s.rays_need_update = true) :
    (update_rays Real.cos Real.sin s).rays = generate_rays Real.cos Real.sin s.light_source
      ∧ (update_rays Real.cos Real.sin s).light_source = s.light_source
      ∧ (update_rays Real.cos Real.sin s).rays_need_update = false
      ∧ (update_rays Real.cos Real.sin s).generate_rays_calls = s.generate_rays_calls + 1 := by
  unfold update_rays
  rw [if_pos h]
  refine ⟨?_, ?_, ?_, ?_⟩ <;> dsimp only

/-- The update of the field when the flag is clear: nothing changes. -/
lemma update_rays_clear (s : Sim ℝ) (h : s.rays_need_update = false) :
    update_rays Real.cos Real.sin s = s := by
  unfold update_rays
  rw [if_neg]
  rw [h]
  exact Bool.false_ne_true

/-- The state at the call of `FillRays`, in a frame that starts with the flag clear and with
the field of the light: the flag is clear and the field is the field of the light; when a
pointer motion with a pressed button is drained `generate_rays` is called once, and otherwise
it is not called and the field and the light are those of the start of the frame. -/
lemma at_FillRays_spec (s : Sim ℝ) (events : List SDL_Event)
    (hflag : s.rays_need_update = false)
    (hfield : s.rays = generate_rays Real.cos Real.sin s.light_source) :
    (at_FillRays Real.cos Real.sin s events).rays_need_update = false
      ∧ (at_FillRays Real.cos Real.sin s events).rays
          = generate_rays Real.cos Real.sin (at_FillRays Real.cos Real.sin s events).light_source
      ∧ ((∃ e ∈ events, IsPressedMotion e) →
          (at_FillRays Real.cos Real.sin s events).generate_rays_calls
            = s.generate_rays_calls + 1)
      ∧ ((¬ ∃ e ∈ events, IsPressedMotion e) →
          (at_FillRays Real.cos Real.sin s events).generate_rays_calls = s.generate_rays_calls
            ∧ (at_FillRays Real.cos Real.sin s events).rays = s.rays
            ∧ (at_FillRays Real.cos Real.sin s events).light_source = s.light_source) := by
  obtain ⟨p1, p0, p2, p3⟩ := poll_events_spec events s
  unfold at_FillRays
  by_cases hex : ∃ e ∈ events, IsPressedMotion e
  · have hset : (poll_events s events).rays_need_update = true := p2.mpr (Or.inr hex)
    obtain ⟨u1, u2, u3, u4⟩ := update_rays_set (poll_events s events) hset
    refine ⟨u3, ?_, fun _ => by rw [u4, p0], fun h => absurd hex h⟩
    rw [u1, u2]
  · have hclear : (poll_events s events).rays_need_update = false := by
      cases hv : (poll_events s events).rays_need_update
      · rfl
      · rcases p2.mp hv with h | h
        · rw [hflag] at h
          cases h
        · exact absurd h hex
    rw [update_rays_clear _ hclear]
    refine ⟨hclear, ?_, fun h => absurd h hex, fun _ => ⟨p0, p1, p3 hclear⟩⟩
    rw [p1, p3 hclear]
    exact hfield

/-- The drawing and the move of the obstacle keep the light, the field, the flag and the count
of the calls of `generate_rays`. -/
lemma frame_keeps (s : Sim ℝ) (events : List SDL_Event) :
    (frame Real.sqrt Real.cos Real.sin s events).rays
        = (at_FillRays Real.cos Real.sin s events).rays
      ∧ (frame Real.sqrt Real.cos Real.sin s events).light_source
        = (at_FillRays Real.cos Real.sin s events).light_source
      ∧ (frame Real.sqrt Real.cos Real.sin s events).rays_need_update
        = (at_FillRays Real.cos Real.sin s events).rays_need_update
      ∧ (frame Real.sqrt Real.cos Real.sin s events).generate_rays_calls
        = (at_FillRays Real.cos Real.sin s events).generate_rays_calls :=
  ⟨rfl, rfl, rfl, rfl⟩

/-- The record of the frames, from a state with the flag clear and the field of the light. -/
lemma frame_log_inv (frames : List (List SDL_Event)) (s : Sim ℝ)
    (hflag : s.rays_need_update = false)
    (hfield : s.rays = generate_rays Real.cos Real.sin s.light_source) :
    ∀ entry ∈ frame_log Real.sqrt Real.cos Real.sin s frames,
      entry.2.2 = update_rays Real.cos Real.sin (poll_events entry.2.1 entry.1)
        ∧ entry.2.2.rays = generate_rays Real.cos Real.sin entry.2.2.light_source
        ∧ ((∃ e ∈ entry.1, IsPressedMotion e) →
            entry.2.2.generate_rays_calls = entry.2.1.generate_rays_calls + 1)
        ∧ ((¬ ∃ e ∈ entry.1, IsPressedMotion e) →
            entry.2.2.generate_rays_calls = entry.2.1.generate_rays_calls
              ∧ entry.2.2.rays = entry.2.1.rays
              ∧ entry.2.2.light_source = entry.2.1.light_source) := by
  induction frames generalizing s with
  | nil =>
    intro entry hentry
    exact absurd hentry (List.not_mem_nil entry)
  | cons events rest ih =>
    intro entry hentry
    rw [frame_log] at hentry
    split_ifs at hentry with hrun
    · obtain ⟨a1, a2, a3, a4⟩ := at_FillRays_spec s events hflag hfield
      rcases List.mem_cons.mp hentry with heq | hmem
      · rw [heq]
        exact ⟨rfl, a2, a3, a4⟩
      · obtain ⟨k1, k2, k3, k4⟩ := frame_keeps s events
        refine ih (frame Real.sqrt Real.cos Real.sin s events) (by rw [k3]; exact a1) ?_ entry hmem
        rw [k1, k2]
        exact a2
    · exact absurd hentry (List.not_mem_nil entry)

/-- C11: in the loop of `main`, started from its initial state and driven by any finite
sequence of queued events, the state at every call of `FillRays` is the state at the head of
the loop after the events of the frame and the update of the field; its field is the field of
`RAYS_NUMBER` rays that `generate_rays` makes for the current light, so every ray of it has its
origin at the current centre of the light; and `generate_rays` is called in the frame, once,
if and only if a pointer-motion event with a pressed button was drained in that frame: in a
frame without one it is not called, and the field and the light stay as they were. -/
theorem ray_field_origin_invariant (surface : Surface) (frames : List (List SDL_Event)) :
    ∀ entry ∈ frame_log Real.sqrt Real.cos Real.sin (main_init Real.cos Real.sin surface) frames,
      entry.2.2 = update_rays Real.cos Real.sin (poll_events entry.2.1 entry.1)
        ∧ entry.2.2.rays = generate_rays Real.cos Real.sin entry.2.2.light_source
        ∧ entry.2.2.rays.length = RAYS_NUMBER
        ∧ (∀ ray ∈ entry.2.2.rays,
            ray.start_x = entry.2.2.light_source.x ∧ ray.start_y = entry.2.2.light_source.y)
        ∧ (entry.2.2.generate_rays_calls = entry.2.1.generate_rays_calls + 1 ↔
            ∃ e ∈ entry.1, IsPressedMotion e)
        ∧ (entry.2.2.generate_rays_calls = entry.2.1.generate_rays_calls ↔
            ¬ ∃ e ∈ entry.1, IsPressedMotion e)
        ∧ ((¬ ∃ e ∈ entry.1, IsPressedMotion e) →
            entry.2.2.rays = entry.2.1.rays
              ∧ entry.2.2.light_source = entry.2.1.light_source) := by
  intro entry hentry
  obtain ⟨e1, e2, e3, e4⟩ :=
    frame_log_inv frames (main_init Real.cos Real.sin surface) rfl
      (by unfold main_init; dsimp only) entry hentry
  refine ⟨e1, e2, ?_, ?_, ?_, ?_, fun h => (e4 h).2⟩
  · rw [e2]
    exact generate_rays_length _
  · intro ray hray
    rw [e2] at hray
    exact generate_rays_origin _ ray hray
  · constructor
    · intro h
      by_contra hno
      have := (e4 hno).1
      omega
    · exact e3
  · constructor
    · intro h hex
      have := e3 hex
      omega
    · intro hno
      exact (e4 hno).1

/-- Witness of C11: in a first frame that drains a motion to `(300,400)` with the button
pressed, `generate_rays` is called (its second call, after the one before the loop), and at
the call of `FillRays` the field has 500 rays, which start at `(300,400)`; in a second frame
that drains no such event `generate_rays` is not called and the field is kept. -/
theorem ray_field_origin_invariant_witness :
    (main_init Real.cos Real.sin ([] : Surface)).generate_rays_calls = 1
      ∧ (at_FillRays Real.cos Real.sin (main_init Real.cos Real.sin [])
          [SDL_Event.mousemotion 1 300 400]).generate_rays_calls = 2
      ∧ (at_FillRays Real.cos Real.sin (main_init Real.cos Real.sin [])
          [SDL_Event.mousemotion 1 300 400]).rays.length = 500
      ∧ (∀ ray ∈ (at_FillRays Real.cos Real.sin (main_init Real.cos Real.sin [])
            [SDL_Event.mousemotion 1 300 400]).rays,
          ray.start_x = 300 ∧ ray.start_y = 400)
      ∧ (at_FillRays Real.cos Real.sin
          (frame Real.sqrt Real.cos Real.sin (main_init Real.cos Real.sin [])
            [SDL_Event.mousemotion 1 300 400])
          [SDL_Event.other]).generate_rays_calls = 2
      ∧ (at_FillRays Real.cos Real.sin
          (frame Real.sqrt Real.cos Real.sin (main_init Real.cos Real.sin [])
            [SDL_Event.mousemotion 1 300 400])
          [SDL_Event.other]).rays
        = (at_FillRays Real.cos Real.sin (main_init Real.cos Real.sin [])
            [SDL_Event.mousemotion 1 300 400]).rays := by
  have hrun : (main_init Real.cos Real.sin ([] : Surface)).simulation_running = true := rfl
  have hrun2 : (frame Real.sqrt Real.cos Real.sin (main_init Real.cos Real.sin ([] : Surface))
      [SDL_Event.mousemotion 1 300 400]).simulation_running = true := by
    simp [frame, advance, render, at_FillRays, update_rays, poll_events, handle_event, main_init]
  have hlog : frame_log Real.sqrt Real.cos Real.sin (main_init Real.cos Real.sin ([] : Surface))
      [[SDL_Event.mousemotion 1 300 400], [SDL_Event.other]]
      = [([SDL_Event.mousemotion 1 300 400], main_init Real.cos Real.sin ([] : Surface),
            at_FillRays Real.cos Real.sin (main_init Real.cos Real.sin [])
              [SDL_Event.mousemotion 1 300 400]),
          ([SDL_Event.other],
            frame Real.sqrt Real.cos Real.sin (main_init Real.cos Real.sin [])
              [SDL_Event.mousemotion 1 300 400],
            at_FillRays Real.cos Real.sin
              (frame Real.sqrt Real.cos Real.sin (main_init Real.cos Real.sin [])
                [SDL_Event.mousemotion 1 300 400])
              [SDL_Event.other])] := by
    rw [frame_log, if_pos hrun, frame_log, if_pos hrun2, frame_log]
  have h1 := ray_field_origin_invariant [] [[SDL_Event.mousemotion 1 300 400], [SDL_Event.other]]
    _ (by rw [hlog]; exact List.mem_cons_self _ _)
  have h2 := ray_field_origin_invariant [] [[SDL_Event.mousemotion 1 300 400], [SDL_Event.other]]
    _ (by rw [hlog]; exact List.mem_cons_of_mem _ (List.mem_cons_self _ _))
  obtain ⟨-, -, a3, a4, a5, -, -⟩ := h1
  obtain ⟨-, -, -, -, -, b6, b7⟩ := h2
  dsimp only at a3 a4 a5 b6 b7
  have hpress : ∃ e ∈ [SDL_Event.mousemotion 1 300 400], IsPressedMotion e :=
    ⟨_, List.mem_singleton.mpr rfl, 1, 300, 400, rfl, by norm_num⟩
  have hnone : ¬ ∃ e ∈ [SDL_Event.other], IsPressedMotion e := by
    rintro ⟨e, he, st, x, y, heq, -⟩
    rw [List.mem_singleton.mp he] at heq
    cases heq
  have hc1 : (at_FillRays Real.cos Real.sin (main_init Real.cos Real.sin ([] : Surface))
      [SDL_Event.mousemotion 1 300 400]).generate_rays_calls = 2 := a5.mpr hpress
  have hx : (at_FillRays Real.cos Real.sin (main_init Real.cos Real.sin ([] : Surface))
      [SDL_Event.mousemotion 1 300 400]).light_source.x = 300 := by
    simp [at_FillRays, update_rays, poll_events, handle_event, main_init]
  have hy : (at_FillRays Real.cos Real.sin (main_init Real.cos Real.sin ([] : Surface))
      [SDL_Event.mousemotion 1 300 400]).light_source.y = 400 := by
    simp [at_FillRays, update_rays, poll_events, handle_event, main_init]
  have hc0 : (main_init Real.cos Real.sin ([] : Surface)).generate_rays_calls = 1 := by
    unfold main_init
    dsimp only
  have hlen : (at_FillRays Real.cos Real.sin (main_init Real.cos Real.sin ([] : Surface))
      [SDL_Event.mousemotion 1 300 400]).rays.length = 500 := by
    rw [a3]
    rfl
  refine ⟨hc0, hc1, hlen, ?_, ?_, ?_⟩
  · intro ray hray
    have h := a4 ray hray
    rw [hx, hy] at h
    exact h
  · rw [b6.mpr hnone]
    exact hc1
  · exact (b7 hnone).1.trans (frame_keeps _ _).1

end Raytracing
